import Mathlib

/-!
Verification development for the `ultra/log` structured logging library.

The Go sources are shallowly embedded: channels become returned lists,
`any` values become type parameters or small inductive types, Go errors
become an inductive `GoError`, and `nil` slices / pointers become `Option`.
Ghost instrumentation (formatter-invocation traces and data-slot marks)
is threaded through the field processor so that invariants about
invocation counts and slot consumption can be stated and proved.
-/

namespace Ultra

/-- Log severity levels (`Level` in the source): totally ordered enum
`Debug < Info < Warn < Error < Panic`. -/
inductive Level where
  | Debug
  | Info
  | Warn
  | Error
  | Panic
deriving DecidableEq, Repr

/-- Numeric value of a level, mirroring the Go `iota` constants. -/
def Level.toNat : Level → Nat
  | .Debug => 0
  | .Info => 1
  | .Warn => 2
  | .Error => 3
  | .Panic => 4

/-- `Level.String()` from the source. -/
def Level.string : Level → String
  | .Debug => "DEBUG"
  | .Info => "INFO"
  | .Warn => "WARN"
  | .Error => "ERROR"
  | .Panic => "PANIC"

/-- `LogLineArgs`: per-call immutable context. `OutputFormat` is a string
(`"json"` / `"text"`) exactly as in the source. -/
structure LogLineArgs where
  level : Level
  tag : String
  outputFormat : String
deriving DecidableEq, Repr

/-- `FieldSettings` from `field.go`. -/
structure FieldSettings where
  HideKey : Bool
  AlwaysMatch : Bool
deriving DecidableEq, Repr

/-- The part of the `Field` interface the processor reads: `Name()` and
`Settings()`.  The formatter itself is resolved by name through the
processor's formatter map, as in `fieldProcessor.getFormatter`. -/
structure Field where
  name : String
  settings : FieldSettings
deriving DecidableEq, Repr

/-- Go `error` values that appear in the embedded code paths
(`errors.go`).  `errors.As` matching in `handleProcessorError` becomes a
constructor match. -/
inductive GoError where
  | nonFatalFormatter (fieldName : String) (msg : String)
  | invalidFieldDataType (field : String)
  | fieldFormatterInit (fieldName : String)
  | missingLevelColor (level : Level)
  | invalidOutput (outputFormat : String)
  | emptyFieldName
  | nilFormatter
  | writeFailed (msg : String)
  | other (msg : String)
deriving DecidableEq, Repr

/-- `Error()` strings of the embedded error types (`errors.go`). -/
def GoError.text : GoError → String
  | .nonFatalFormatter n m => "non-fatal error formatting field: " ++ n ++ ", err=" ++ m
  | .invalidFieldDataType f => "invalid field data for field: " ++ f
  | .fieldFormatterInit n => "error formatting field: " ++ n ++ ", err=<nil>"
  | .missingLevelColor l => "missing color for level: " ++ l.string
  | .invalidOutput f => "invalid output format: " ++ f
  | .emptyFieldName => "field name cannot be empty"
  | .nilFormatter => "formatter cannot be nil"
  | .writeFailed m => m
  | .other m => m

/-! ## Field matching processor (`processor.go`)

A `FieldFormatter` receives either the no-data sentinel `struct{}{}`
(for `AlwaysMatch` fields) or one positional datum.  It returns
`(any, error)`; we model this as `Except GoError (Option β)` — a Go
formatter may return a `nil` result with a `nil` error. -/

/-- The `any` argument a field formatter receives: the `struct{}{}`
sentinel or a positional datum. -/
inductive FieldInput (α : Type) where
  | sentinel
  | datum (d : α)
deriving DecidableEq, Repr

/-- A field formatter as invoked by the processor. -/
abbrev FieldFormatter (α β : Type) := LogLineArgs → FieldInput α → Except GoError (Option β)

/-- The `fieldData` payload of a processing result: either a
formatter-produced value, or — for a non-fatal formatter error — the
error's text (a Go `string` stored in the `any` field). -/
inductive ProcValue (β : Type) where
  | val (v : β)
  | errText (s : String)
deriving DecidableEq, Repr

/-- `fieldProcessingResult`: one per match, or one terminal error. -/
inductive ProcResult (β : Type) where
  | res (fieldName : String) (fieldSettings : FieldSettings) (fieldData : ProcValue β)
  | err (fieldName : String) (e : GoError)
deriving DecidableEq, Repr

def ProcResult.isRes {β : Type} : ProcResult β → Bool
  | .res _ _ _ => true
  | .err _ _ => false

/-- Outcome of processing one field: the updated `matchedData` flags, the
results sent to the channel, an optional fatal error (returned to
`processAllFields`), plus ghost instrumentation: the inputs the field's
formatter was invoked on (in order) and the data indices this field
marked as matched. -/
structure FieldStep (α β : Type) where
  matched : List Bool
  results : List (ProcResult β)
  fatal : Option GoError
  calls : List (FieldInput α)
  marks : List Nat
deriving DecidableEq, Repr

/-- `fieldProcessor.handleProcessorError`: classify a formatter error.
`some rs` means the error was handled (processing continues) and `rs`
are the results sent; `none` means unhandled (fatal). -/
def handleProcessorError {β : Type} (field : Field) (e : GoError) :
    Option (List (ProcResult β)) :=
  match e with
  | .nonFatalFormatter n m =>
      some [.res field.name field.settings (.errText (GoError.text (.nonFatalFormatter n m)))]
  | .invalidFieldDataType _ => some []
  | _ => none

/-- `fieldProcessor.processAlwaysMatchField`: invoke the formatter once
with the sentinel; consume nothing. -/
def processAlwaysMatchField {α β : Type} (args : LogLineArgs) (field : Field)
    (fmt : FieldFormatter α β) (matched : List Bool) : FieldStep α β :=
  match fmt args .sentinel with
  | .error e =>
      match handleProcessorError field e with
      | some rs => ⟨matched, rs, none, [.sentinel], []⟩
      | none => ⟨matched, [], some e, [.sentinel], []⟩
  | .ok none => ⟨matched, [], none, [.sentinel], []⟩
  | .ok (some v) =>
      ⟨matched, [.res field.name field.settings (.val v)], none, [.sentinel], []⟩

/-- Loop body of `fieldProcessor.processDataMatchingField`: scan `data`
(paired positionally with the `matched` flags, `i` being the index of the
head), skipping already-matched indices; on success mark the datum and
emit one result; on a handled error emit its results and continue; on an
unhandled error stop with a fatal error. -/
def processDataMatchingFieldAux {α β : Type} (args : LogLineArgs) (field : Field)
    (fmt : FieldFormatter α β) :
    List α → List Bool → Nat → FieldStep α β
  | [], ms, _ => ⟨ms, [], none, [], []⟩
  | _ :: _, [], _ => ⟨[], [], none, [], []⟩
  | _ :: ds, true :: ms, i =>
    let rest := processDataMatchingFieldAux args field fmt ds ms (i + 1)
    ⟨true :: rest.matched, rest.results, rest.fatal, rest.calls, rest.marks⟩
  | d :: ds, false :: ms, i =>
    match fmt args (.datum d) with
    | .error e =>
        match handleProcessorError field e with
        | some rs =>
            let rest := processDataMatchingFieldAux args field fmt ds ms (i + 1)
            ⟨false :: rest.matched, rs ++ rest.results, rest.fatal,
              .datum d :: rest.calls, rest.marks⟩
        | none => ⟨false :: ms, [], some e, [.datum d], []⟩
    | .ok none =>
        let rest := processDataMatchingFieldAux args field fmt ds ms (i + 1)
        ⟨false :: rest.matched, rest.results, rest.fatal,
          .datum d :: rest.calls, rest.marks⟩
    | .ok (some v) =>
        let rest := processDataMatchingFieldAux args field fmt ds ms (i + 1)
        ⟨true :: rest.matched,
          .res field.name field.settings (.val v) :: rest.results, rest.fatal,
          .datum d :: rest.calls, i :: rest.marks⟩

/-- `fieldProcessor.processDataMatchingField`. -/
def processDataMatchingField {α β : Type} (args : LogLineArgs) (field : Field)
    (fmt : FieldFormatter α β) (data : List α) (matched : List Bool) : FieldStep α β :=
  processDataMatchingFieldAux args field fmt data matched 0

/-- `fieldProcessor.processField`: resolve the formatter by name (absence
is fatal), then dispatch on `AlwaysMatch`. -/
def processField {α β : Type} (args : LogLineArgs)
    (formatters : String → Option (FieldFormatter α β)) (field : Field)
    (data : List α) (matched : List Bool) : FieldStep α β :=
  match formatters field.name with
  | none => ⟨matched, [], some (.fieldFormatterInit field.name), [], []⟩
  | some fmt =>
    if field.settings.AlwaysMatch then
      processAlwaysMatchField args field fmt matched
    else
      processDataMatchingField args field fmt data matched

/-- Outcome of a whole processor run: final `matchedData`, the full
(ordered, closed) result stream, and ghost traces tagged with the index
of the emitting field. -/
structure ProcRun (α β : Type) where
  matched : List Bool
  results : List (ProcResult β)
  calls : List (Nat × FieldInput α)
  marks : List (Nat × Nat)
deriving DecidableEq, Repr

/-- `fieldProcessor.processAllFields`: fields in declaration order; a
fatal error from a field emits one terminal error result (with that
field's name) and aborts all remaining fields.  `k` is the index of the
first field in the list. -/
def processAllFieldsAux {α β : Type} (args : LogLineArgs)
    (formatters : String → Option (FieldFormatter α β)) (data : List α) :
    List Field → List Bool → Nat → ProcRun α β
  | [], ms, _ => ⟨ms, [], [], []⟩
  | f :: fs, ms, k =>
    let step := processField args formatters f data ms
    match step.fatal with
    | some e =>
        ⟨step.matched, step.results ++ [.err f.name e],
          step.calls.map (fun c => (k, c)), step.marks.map (fun i => (k, i))⟩
    | none =>
        let rest := processAllFieldsAux args formatters data fs step.matched (k + 1)
        ⟨rest.matched, step.results ++ rest.results,
          step.calls.map (fun c => (k, c)) ++ rest.calls,
          step.marks.map (fun i => (k, i)) ++ rest.marks⟩

/-- `processFieldsWithData`: run the processor over a fresh
`matchedData := make([]bool, len(data))`.  The returned `results` list is
the content of the result channel, which is closed on completion or on
the first fatal error. -/
def processFieldsWithData {α β : Type} (args : LogLineArgs) (fields : List Field)
    (formatters : String → Option (FieldFormatter α β)) (data : List α) : ProcRun α β :=
  processAllFieldsAux args formatters data fields (List.replicate data.length false) 0

/-- A processing result carrying a formatter-produced value (a consumed
match), as opposed to a non-fatal-error text or a terminal error. -/
def ProcResult.isVal {β : Type} : ProcResult β → Bool
  | .res _ _ (.val _) => true
  | _ => false

section ProcessorLemmas

variable {α β : Type} {args : LogLineArgs} {field : Field} {fmt : FieldFormatter α β}

theorem handleProcessorError_all_res {e : GoError} {rs : List (ProcResult β)}
    (h : handleProcessorError field e = some rs) : rs.all ProcResult.isRes = true := by
  cases e <;> simp [handleProcessorError] at h <;> subst h <;> simp [ProcResult.isRes]

theorem pdm_marks_lb (data : List α) (ms : List Bool) (i : Nat) :
    ∀ q ∈ (processDataMatchingFieldAux args field fmt data ms i).marks, i ≤ q := by
  induction data generalizing ms i with
  | nil => intro q hq; simp [processDataMatchingFieldAux] at hq
  | cons d ds ih =>
    intro q hq
    match ms with
    | [] => simp [processDataMatchingFieldAux] at hq
    | true :: ms' =>
      simp only [processDataMatchingFieldAux] at hq
      exact Nat.le_of_succ_le (ih ms' (i + 1) q hq)
    | false :: ms' =>
      rcases hfmt : fmt args (.datum d) with e | ov
      · rcases hh : handleProcessorError (β := β) field e with _ | rs
        · simp [processDataMatchingFieldAux, hfmt, hh] at hq
        · simp only [processDataMatchingFieldAux, hfmt, hh] at hq
          exact Nat.le_of_succ_le (ih ms' (i + 1) q hq)
      · cases ov with
        | none =>
          simp only [processDataMatchingFieldAux, hfmt] at hq
          exact Nat.le_of_succ_le (ih ms' (i + 1) q hq)
        | some v =>
          simp only [processDataMatchingFieldAux, hfmt, List.mem_cons] at hq
          rcases hq with rfl | hq
          · exact Nat.le.refl
          · exact Nat.le_of_succ_le (ih ms' (i + 1) q hq)

theorem pdm_marks_spec (data : List α) (ms : List Bool) (i : Nat) :
    ∀ q ∈ (processDataMatchingFieldAux args field fmt data ms i).marks,
      ∃ j, q = i + j ∧ j < ms.length ∧ ms.getD j false = false := by
  induction data generalizing ms i with
  | nil => intro q hq; simp [processDataMatchingFieldAux] at hq
  | cons d ds ih =>
    intro q hq
    match ms with
    | [] => simp [processDataMatchingFieldAux] at hq
    | true :: ms' =>
      simp only [processDataMatchingFieldAux] at hq
      obtain ⟨j, rfl, hj, hms⟩ := ih ms' (i + 1) q hq
      exact ⟨j + 1, by omega, by simpa using hj, by simpa using hms⟩
    | false :: ms' =>
      rcases hfmt : fmt args (.datum d) with e | ov
      · rcases hh : handleProcessorError (β := β) field e with _ | rs
        · simp [processDataMatchingFieldAux, hfmt, hh] at hq
        · simp only [processDataMatchingFieldAux, hfmt, hh] at hq
          obtain ⟨j, rfl, hj, hms⟩ := ih ms' (i + 1) q hq
          exact ⟨j + 1, by omega, by simpa using hj, by simpa using hms⟩
      · cases ov with
        | none =>
          simp only [processDataMatchingFieldAux, hfmt] at hq
          obtain ⟨j, rfl, hj, hms⟩ := ih ms' (i + 1) q hq
          exact ⟨j + 1, by omega, by simpa using hj, by simpa using hms⟩
        | some v =>
          simp only [processDataMatchingFieldAux, hfmt, List.mem_cons] at hq
          rcases hq with rfl | hq
          · exact ⟨0, by omega, by simp, rfl⟩
          · obtain ⟨j, rfl, hj, hms⟩ := ih ms' (i + 1) q hq
            exact ⟨j + 1, by omega, by simpa using hj, by simpa using hms⟩

theorem pdm_marks_nodup (data : List α) (ms : List Bool) (i : Nat) :
    (processDataMatchingFieldAux args field fmt data ms i).marks.Nodup := by
  induction data generalizing ms i with
  | nil => simp [processDataMatchingFieldAux]
  | cons d ds ih =>
    match ms with
    | [] => simp [processDataMatchingFieldAux]
    | true :: ms' =>
      simpa only [processDataMatchingFieldAux] using ih ms' (i + 1)
    | false :: ms' =>
      rcases hfmt : fmt args (.datum d) with e | ov
      · rcases hh : handleProcessorError (β := β) field e with _ | rs
        · simp [processDataMatchingFieldAux, hfmt, hh]
        · simpa only [processDataMatchingFieldAux, hfmt, hh] using ih ms' (i + 1)
      · cases ov with
        | none => simpa only [processDataMatchingFieldAux, hfmt] using ih ms' (i + 1)
        | some v =>
          simp only [processDataMatchingFieldAux, hfmt]
          refine List.nodup_cons.2 ⟨fun hmem => ?_, ih ms' (i + 1)⟩
          exact absurd (pdm_marks_lb ds ms' (i + 1) i hmem) (by omega)

theorem pdm_matched_mono (data : List α) (ms : List Bool) (i : Nat) (j : Nat)
    (h : ms.getD j false = true) :
    (processDataMatchingFieldAux args field fmt data ms i).matched.getD j false = true := by
  induction data generalizing ms i j with
  | nil => simpa [processDataMatchingFieldAux] using h
  | cons d ds ih =>
    match ms with
    | [] => simp at h
    | true :: ms' =>
      simp only [processDataMatchingFieldAux]
      cases j with
      | zero => simp
      | succ j' => simpa using ih ms' (i + 1) j' (by simpa using h)
    | false :: ms' =>
      cases j with
      | zero => simp at h
      | succ j' =>
        have h' : ms'.getD j' false = true := by simpa using h
        rcases hfmt : fmt args (.datum d) with e | ov
        · rcases hh : handleProcessorError (β := β) field e with _ | rs
          · simpa [processDataMatchingFieldAux, hfmt, hh] using h'
          · simpa only [processDataMatchingFieldAux, hfmt, hh, List.getD_cons_succ]
              using ih ms' (i + 1) j' h'
        · cases ov with
          | none =>
            simpa only [processDataMatchingFieldAux, hfmt, List.getD_cons_succ]
              using ih ms' (i + 1) j' h'
          | some v =>
            simpa only [processDataMatchingFieldAux, hfmt, List.getD_cons_succ]
              using ih ms' (i + 1) j' h'

theorem pdm_marked_true (data : List α) (ms : List Bool) (i : Nat) :
    ∀ q ∈ (processDataMatchingFieldAux args field fmt data ms i).marks,
      (processDataMatchingFieldAux args field fmt data ms i).matched.getD (q - i) false = true := by
  induction data generalizing ms i with
  | nil => intro q hq; simp [processDataMatchingFieldAux] at hq
  | cons d ds ih =>
    intro q hq
    match ms with
    | [] => simp [processDataMatchingFieldAux] at hq
    | true :: ms' =>
      simp only [processDataMatchingFieldAux] at hq ⊢
      have hlb' := pdm_marks_lb ds ms' (i + 1) q hq
      have hqi : q - i = (q - (i + 1)) + 1 := by omega
      rw [hqi]
      simpa using ih ms' (i + 1) q hq
    | false :: ms' =>
      rcases hfmt : fmt args (.datum d) with e | ov
      · rcases hh : handleProcessorError (β := β) field e with _ | rs
        · simp [processDataMatchingFieldAux, hfmt, hh] at hq
        · simp only [processDataMatchingFieldAux, hfmt, hh] at hq ⊢
          have hlb' := pdm_marks_lb ds ms' (i + 1) q hq
          have hqi : q - i = (q - (i + 1)) + 1 := by omega
          rw [hqi]
          simpa using ih ms' (i + 1) q hq
      · cases ov with
        | none =>
          simp only [processDataMatchingFieldAux, hfmt] at hq ⊢
          have hlb' := pdm_marks_lb ds ms' (i + 1) q hq
          have hqi : q - i = (q - (i + 1)) + 1 := by omega
          rw [hqi]
          simpa using ih ms' (i + 1) q hq
        | some v =>
          simp only [processDataMatchingFieldAux, hfmt, List.mem_cons] at hq ⊢
          rcases hq with rfl | hq
          · simp
          · have hlb' := pdm_marks_lb ds ms' (i + 1) q hq
            have hqi : q - i = (q - (i + 1)) + 1 := by omega
            rw [hqi]
            simpa using ih ms' (i + 1) q hq

theorem handleProcessorError_no_val {e : GoError} {rs : List (ProcResult β)}
    (h : handleProcessorError field e = some rs) :
    rs.filter (fun r => r.isVal) = [] := by
  cases e <;> simp [handleProcessorError] at h <;> subst h <;> simp [ProcResult.isVal]

theorem pdm_calls_sublist (data : List α) (ms : List Bool) (i : Nat) :
    (processDataMatchingFieldAux args field fmt data ms i).calls.Sublist
      (data.map FieldInput.datum) := by
  induction data generalizing ms i with
  | nil => simp [processDataMatchingFieldAux]
  | cons d ds ih =>
    match ms with
    | [] => simp [processDataMatchingFieldAux]
    | true :: ms' =>
      simp only [processDataMatchingFieldAux, List.map_cons]
      exact (ih ms' (i + 1)).cons _
    | false :: ms' =>
      rcases hfmt : fmt args (.datum d) with e | ov
      · rcases hh : handleProcessorError (β := β) field e with _ | rs
        · simp only [processDataMatchingFieldAux, hfmt, hh, List.map_cons]
          exact (List.nil_sublist _).cons₂ _
        · simp only [processDataMatchingFieldAux, hfmt, hh, List.map_cons]
          exact (ih ms' (i + 1)).cons₂ _
      · cases ov with
        | none =>
          simp only [processDataMatchingFieldAux, hfmt, List.map_cons]
          exact (ih ms' (i + 1)).cons₂ _
        | some v =>
          simp only [processDataMatchingFieldAux, hfmt, List.map_cons]
          exact (ih ms' (i + 1)).cons₂ _

theorem pdm_val_count (data : List α) (ms : List Bool) (i : Nat) :
    ((processDataMatchingFieldAux args field fmt data ms i).results.filter
      (fun r => r.isVal)).length =
      (processDataMatchingFieldAux args field fmt data ms i).marks.length := by
  induction data generalizing ms i with
  | nil => simp [processDataMatchingFieldAux]
  | cons d ds ih =>
    match ms with
    | [] => simp [processDataMatchingFieldAux]
    | true :: ms' =>
      simpa only [processDataMatchingFieldAux] using ih ms' (i + 1)
    | false :: ms' =>
      rcases hfmt : fmt args (.datum d) with e | ov
      · rcases hh : handleProcessorError (β := β) field e with _ | rs
        · simp [processDataMatchingFieldAux, hfmt, hh]
        · have hrs := handleProcessorError_no_val hh
          simp only [processDataMatchingFieldAux, hfmt, hh, List.filter_append, hrs,
            List.nil_append]
          exact ih ms' (i + 1)
      · cases ov with
        | none => simpa only [processDataMatchingFieldAux, hfmt] using ih ms' (i + 1)
        | some v =>
          simp only [processDataMatchingFieldAux, hfmt]
          simpa [ProcResult.isVal] using ih ms' (i + 1)

theorem pdm_all_res (data : List α) (ms : List Bool) (i : Nat) :
    (processDataMatchingFieldAux args field fmt data ms i).results.all
      ProcResult.isRes = true := by
  induction data generalizing ms i with
  | nil => simp [processDataMatchingFieldAux]
  | cons d ds ih =>
    match ms with
    | [] => simp [processDataMatchingFieldAux]
    | true :: ms' =>
      simpa only [processDataMatchingFieldAux] using ih ms' (i + 1)
    | false :: ms' =>
      rcases hfmt : fmt args (.datum d) with e | ov
      · rcases hh : handleProcessorError (β := β) field e with _ | rs
        · simp [processDataMatchingFieldAux, hfmt, hh]
        · have hrs := handleProcessorError_all_res hh
          simp only [processDataMatchingFieldAux, hfmt, hh, List.all_append, hrs,
            Bool.true_and]
          exact ih ms' (i + 1)
      · cases ov with
        | none => simpa only [processDataMatchingFieldAux, hfmt] using ih ms' (i + 1)
        | some v =>
          simp only [processDataMatchingFieldAux, hfmt]
          simpa [ProcResult.isRes] using ih ms' (i + 1)

theorem pdm_fatal_iff (data : List α) (ms : List Bool) (i : Nat) (e : GoError) :
    (processDataMatchingFieldAux args field fmt data ms i).fatal = some e ↔
      handleProcessorError (β := β) field e = none ∧
        ∃ inp ∈ (processDataMatchingFieldAux args field fmt data ms i).calls,
          fmt args inp = .error e := by
  induction data generalizing ms i with
  | nil => simp [processDataMatchingFieldAux]
  | cons d ds ih =>
    match ms with
    | [] => simp [processDataMatchingFieldAux]
    | true :: ms' =>
      simpa only [processDataMatchingFieldAux] using ih ms' (i + 1)
    | false :: ms' =>
      rcases hfmt : fmt args (.datum d) with e' | ov
      · rcases hh : handleProcessorError (β := β) field e' with _ | rs
        · simp only [processDataMatchingFieldAux, hfmt, hh, List.mem_singleton,
            Option.some.injEq]
          constructor
          · rintro rfl
            exact ⟨hh, .datum d, rfl, hfmt⟩
          · rintro ⟨he, inp, rfl, hi⟩
            rw [hfmt] at hi
            simpa using hi
        · simp only [processDataMatchingFieldAux, hfmt, hh, List.mem_cons]
          rw [ih ms' (i + 1)]
          constructor
          · rintro ⟨he, inp, hmem, hi⟩
            exact ⟨he, inp, Or.inr hmem, hi⟩
          · rintro ⟨he, inp, hmem | hmem, hi⟩
            · subst hmem
              rw [hfmt] at hi
              obtain rfl : e' = e := by
                simpa using hi
              rw [hh] at he
              simp at he
            · exact ⟨he, inp, hmem, hi⟩
      · cases ov with
        | none =>
          simp only [processDataMatchingFieldAux, hfmt, List.mem_cons]
          rw [ih ms' (i + 1)]
          constructor
          · rintro ⟨he, inp, hmem, hi⟩
            exact ⟨he, inp, Or.inr hmem, hi⟩
          · rintro ⟨he, inp, hmem | hmem, hi⟩
            · subst hmem
              rw [hfmt] at hi
              simp at hi
            · exact ⟨he, inp, hmem, hi⟩
        | some v =>
          simp only [processDataMatchingFieldAux, hfmt, List.mem_cons]
          rw [ih ms' (i + 1)]
          constructor
          · rintro ⟨he, inp, hmem, hi⟩
            exact ⟨he, inp, Or.inr hmem, hi⟩
          · rintro ⟨he, inp, hmem | hmem, hi⟩
            · subst hmem
              rw [hfmt] at hi
              simp at hi
            · exact ⟨he, inp, hmem, hi⟩

theorem pam_static (matched : List Bool) :
    (processAlwaysMatchField args field fmt matched).calls = [.sentinel] ∧
      (processAlwaysMatchField args field fmt matched).matched = matched ∧
      (processAlwaysMatchField args field fmt matched).marks = [] := by
  rcases hfmt : fmt args .sentinel with e | ov
  · rcases hh : handleProcessorError (β := β) field e with _ | rs <;>
      simp [processAlwaysMatchField, hfmt, hh]
  · cases ov <;> simp [processAlwaysMatchField, hfmt]

theorem pam_results_length (matched : List Bool) :
    (processAlwaysMatchField args field fmt matched).results.length =
      (match fmt args .sentinel with
        | .ok (some _) => 1
        | .error (.nonFatalFormatter _ _) => 1
        | _ => 0) := by
  rcases hfmt : fmt args .sentinel with e | ov
  · cases e <;> simp [processAlwaysMatchField, hfmt, handleProcessorError]
  · cases ov <;> simp [processAlwaysMatchField, hfmt]

theorem pam_all_res (matched : List Bool) :
    (processAlwaysMatchField args field fmt matched).results.all
      ProcResult.isRes = true := by
  rcases hfmt : fmt args .sentinel with e | ov
  · rcases hh : handleProcessorError (β := β) field e with _ | rs
    · simp [processAlwaysMatchField, hfmt, hh]
    · have := handleProcessorError_all_res hh
      simp [processAlwaysMatchField, hfmt, hh, this]
  · cases ov <;> simp [processAlwaysMatchField, hfmt, ProcResult.isRes]

theorem pam_fatal_iff (matched : List Bool) (e : GoError) :
    (processAlwaysMatchField args field fmt matched).fatal = some e ↔
      handleProcessorError (β := β) field e = none ∧
        ∃ inp ∈ (processAlwaysMatchField args field fmt matched).calls,
          fmt args inp = .error e := by
  rcases hfmt : fmt args .sentinel with e' | ov
  · rcases hh : handleProcessorError (β := β) field e' with _ | rs
    · simp only [processAlwaysMatchField, hfmt, hh, Option.some.injEq,
        List.mem_singleton]
      constructor
      · rintro rfl
        exact ⟨hh, .sentinel, rfl, hfmt⟩
      · rintro ⟨he, inp, rfl, hi⟩
        rw [hfmt] at hi
        simpa using hi
    · simp only [processAlwaysMatchField, hfmt, hh, List.mem_singleton]
      constructor
      · rintro h
        simp at h
      · rintro ⟨he, inp, rfl, hi⟩
        rw [hfmt] at hi
        obtain rfl : e' = e := by simpa using hi
        rw [hh] at he
        simp at he
  · cases ov <;>
      · simp only [processAlwaysMatchField, hfmt, List.mem_singleton]
        constructor
        · rintro h
          simp at h
        · rintro ⟨he, inp, rfl, hi⟩
          rw [hfmt] at hi
          simp at hi

end ProcessorLemmas

section ProcessFieldLemmas

variable {α β : Type} {args : LogLineArgs} {field : Field}
variable {formatters : String → Option (FieldFormatter α β)}

theorem pf_matched_mono (data : List α) (ms : List Bool) (j : Nat)
    (h : ms.getD j false = true) :
    (processField args formatters field data ms).matched.getD j false = true := by
  rcases hlk : formatters field.name with _ | fmt
  · simpa [processField, hlk] using h
  · rcases hA : field.settings.AlwaysMatch with _ | _
    · simpa only [processField, hlk, hA, Bool.false_eq_true, if_false] using
        pdm_matched_mono data ms 0 j h
    · have hpam : (processAlwaysMatchField args field fmt ms).matched = ms :=
        (pam_static ms).2.1
      simp only [processField, hlk, hA, if_true, hpam]
      exact h

theorem pf_marks_fresh (data : List α) (ms : List Bool) :
    ∀ q ∈ (processField args formatters field data ms).marks,
      q < ms.length ∧ ms.getD q false = false := by
  intro q hq
  rcases hlk : formatters field.name with _ | fmt
  · simp [processField, hlk] at hq
  · rcases hA : field.settings.AlwaysMatch with _ | _
    · simp only [processField, hlk, hA, Bool.false_eq_true, if_false] at hq
      obtain ⟨j, rfl, hj, hms⟩ := pdm_marks_spec data ms 0 q hq
      exact ⟨by omega, by simpa using hms⟩
    · have hpam : (processAlwaysMatchField args field fmt ms).marks = [] :=
        (pam_static ms).2.2
      simp [processField, hlk, hA, hpam] at hq

theorem pf_marked_true (data : List α) (ms : List Bool) :
    ∀ q ∈ (processField args formatters field data ms).marks,
      (processField args formatters field data ms).matched.getD q false = true := by
  intro q hq
  rcases hlk : formatters field.name with _ | fmt
  · simp [processField, hlk] at hq
  · rcases hA : field.settings.AlwaysMatch with _ | _
    · simp only [processField, hlk, hA, Bool.false_eq_true, if_false] at hq ⊢
      simpa using pdm_marked_true data ms 0 q hq
    · have hpam : (processAlwaysMatchField args field fmt ms).marks = [] :=
        (pam_static ms).2.2
      simp [processField, hlk, hA, hpam] at hq

theorem pf_marks_nodup (data : List α) (ms : List Bool) :
    (processField args formatters field data ms).marks.Nodup := by
  rcases hlk : formatters field.name with _ | fmt
  · simp [processField, hlk]
  · rcases hA : field.settings.AlwaysMatch with _ | _
    · simp only [processField, hlk, hA, Bool.false_eq_true, if_false]
      exact pdm_marks_nodup data ms 0
    · have hpam : (processAlwaysMatchField args field fmt ms).marks = [] :=
        (pam_static ms).2.2
      simp [processField, hlk, hA, hpam]

theorem pf_all_res (data : List α) (ms : List Bool) :
    (processField args formatters field data ms).results.all
      ProcResult.isRes = true := by
  rcases hlk : formatters field.name with _ | fmt
  · simp [processField, hlk]
  · rcases hA : field.settings.AlwaysMatch with _ | _
    · simp only [processField, hlk, hA, Bool.false_eq_true, if_false]
      exact pdm_all_res data ms 0
    · simp only [processField, hlk, hA, if_true]
      exact pam_all_res ms

theorem pf_fatal_iff (data : List α) (ms : List Bool) (e : GoError) :
    (processField args formatters field data ms).fatal = some e ↔
      (formatters field.name = none ∧ e = .fieldFormatterInit field.name) ∨
        (∃ fmt, formatters field.name = some fmt ∧
          handleProcessorError (β := β) field e = none ∧
          ∃ inp ∈ (processField args formatters field data ms).calls,
            fmt args inp = .error e) := by
  rcases hlk : formatters field.name with _ | fmt
  · simp [processField, hlk, eq_comm]
  · rcases hA : field.settings.AlwaysMatch with _ | _
    · simp only [processField, hlk, hA, Bool.false_eq_true, if_false,
        processDataMatchingField]
      rw [pdm_fatal_iff data ms 0 e]
      constructor
      · rintro ⟨he, inp, hmem, hi⟩
        exact Or.inr ⟨fmt, rfl, he, inp, hmem, hi⟩
      · rintro (⟨hnone, _⟩ | ⟨fmt', hfmt', he, inp, hmem, hi⟩)
        · simp at hnone
        · obtain rfl : fmt = fmt' := by simpa using hfmt'
          exact ⟨he, inp, hmem, hi⟩
    · simp only [processField, hlk, hA, if_true]
      rw [pam_fatal_iff ms e]
      constructor
      · rintro ⟨he, inp, hmem, hi⟩
        exact Or.inr ⟨fmt, rfl, he, inp, hmem, hi⟩
      · rintro (⟨hnone, _⟩ | ⟨fmt', hfmt', he, inp, hmem, hi⟩)
        · simp at hnone
        · obtain rfl : fmt = fmt' := by simpa using hfmt'
          exact ⟨he, inp, hmem, hi⟩

end ProcessFieldLemmas

section RunLemmas

variable {α β : Type} {args : LogLineArgs}
variable {formatters : String → Option (FieldFormatter α β)} {data : List α}

theorem runAux_cons_fatal {f : Field} {fs : List Field} {ms : List Bool} {k : Nat}
    {e : GoError} (h : (processField args formatters f data ms).fatal = some e) :
    processAllFieldsAux args formatters data (f :: fs) ms k =
      ⟨(processField args formatters f data ms).matched,
        (processField args formatters f data ms).results ++ [.err f.name e],
        (processField args formatters f data ms).calls.map (fun c => (k, c)),
        (processField args formatters f data ms).marks.map (fun i => (k, i))⟩ := by
  simp [processAllFieldsAux, h]

theorem runAux_cons_ok {f : Field} {fs : List Field} {ms : List Bool} {k : Nat}
    (h : (processField args formatters f data ms).fatal = none) :
    processAllFieldsAux args formatters data (f :: fs) ms k =
      ⟨(processAllFieldsAux args formatters data fs
          (processField args formatters f data ms).matched (k + 1)).matched,
        (processField args formatters f data ms).results ++
          (processAllFieldsAux args formatters data fs
            (processField args formatters f data ms).matched (k + 1)).results,
        (processField args formatters f data ms).calls.map (fun c => (k, c)) ++
          (processAllFieldsAux args formatters data fs
            (processField args formatters f data ms).matched (k + 1)).calls,
        (processField args formatters f data ms).marks.map (fun i => (k, i)) ++
          (processAllFieldsAux args formatters data fs
            (processField args formatters f data ms).matched (k + 1)).marks⟩ := by
  simp [processAllFieldsAux, h]

theorem run_marks_nodup_fresh (fields : List Field) (ms : List Bool) (k : Nat) :
    ((processAllFieldsAux args formatters data fields ms k).marks.map Prod.snd).Nodup ∧
      ∀ q ∈ (processAllFieldsAux args formatters data fields ms k).marks.map Prod.snd,
        ms.getD q false = false := by
  induction fields generalizing ms k with
  | nil => simp [processAllFieldsAux]
  | cons f fs ih =>
    have hstep_nodup : (processField args formatters f data ms).marks.Nodup :=
      pf_marks_nodup data ms
    have hstep_fresh : ∀ q ∈ (processField args formatters f data ms).marks,
        q < ms.length ∧ ms.getD q false = false :=
      pf_marks_fresh data ms
    have hstep_true : ∀ q ∈ (processField args formatters f data ms).marks,
        (processField args formatters f data ms).matched.getD q false = true :=
      pf_marked_true data ms
    have hmapeq : ∀ l : List Nat, (l.map (fun i => (k, i))).map Prod.snd = l := by
      intro l; simp
    rcases hfat : (processField args formatters f data ms).fatal with _ | e
    · obtain ⟨ih_nodup, ih_fresh⟩ := ih (processField args formatters f data ms).matched (k + 1)
      rw [runAux_cons_ok hfat]
      constructor
      · rw [List.map_append, hmapeq]
        refine List.Nodup.append hstep_nodup ih_nodup ?_
        intro q hq hq'
        have h1 := hstep_true q hq
        have h2 := ih_fresh q hq'
        rw [h1] at h2
        simp at h2
      · intro q hq
        rw [List.map_append, hmapeq, List.mem_append] at hq
        rcases hq with hq | hq
        · exact (hstep_fresh q hq).2
        · rcases hms : ms.getD q false with _ | _
          · rfl
          · have hmono : (processField args formatters f data ms).matched.getD
                q false = true :=
              pf_matched_mono data ms q hms
            rw [ih_fresh q hq] at hmono
            simp at hmono
    · rw [runAux_cons_fatal hfat]
      constructor
      · rw [hmapeq]
        exact hstep_nodup
      · intro q hq
        rw [hmapeq] at hq
        exact (hstep_fresh q hq).2

theorem run_results_shape (fields : List Field) (ms : List Bool) (k : Nat) :
    ∃ rs t, (processAllFieldsAux args formatters data fields ms k).results = rs ++ t ∧
      rs.all ProcResult.isRes = true ∧
      (t = [] ∨ ∃ n e, t = [ProcResult.err n e]) := by
  induction fields generalizing ms k with
  | nil => exact ⟨[], [], by simp [processAllFieldsAux]⟩
  | cons f fs ih =>
    rcases hfat : (processField args formatters f data ms).fatal with _ | e
    · obtain ⟨rs, t, heq, hall, hterm⟩ := ih (processField args formatters f data ms).matched (k + 1)
      refine ⟨(processField args formatters f data ms).results ++ rs, t, ?_, ?_, hterm⟩
      · rw [runAux_cons_ok hfat]
        simp [heq]
      · rw [List.all_append]
        simp only [Bool.and_eq_true]
        exact ⟨pf_all_res data ms, hall⟩
    · refine ⟨(processField args formatters f data ms).results,
        [ProcResult.err f.name e], ?_, pf_all_res data ms, Or.inr ⟨f.name, e, rfl⟩⟩
      rw [runAux_cons_fatal hfat]

end RunLemmas

/-! ## Claims C1 and C4 -/

/-- Formatter used by the C1 counterexample: always returns a Go `nil`
result with a `nil` error. -/
def c1NilFmt : FieldFormatter Nat String := fun _ _ => .ok none

def c1NilFormatters : String → Option (FieldFormatter Nat String) :=
  fun _ => some c1NilFmt

/-- C1 counterexample: an `AlwaysMatch` field whose formatter returns a
nil result (with nil error) is processed — its formatter is invoked
exactly once with the sentinel — yet it emits **zero** results for the
line (here with data length zero), refuting "it is emitted exactly once
per line for any data length including zero". -/
theorem c1_counterexample :
    (processFieldsWithData ⟨.Info, "", "text"⟩ [⟨"am", ⟨false, true⟩⟩]
      c1NilFormatters ([] : List Nat)).results = [] ∧
    (processFieldsWithData ⟨.Info, "", "text"⟩ [⟨"am", ⟨false, true⟩⟩]
      c1NilFormatters ([] : List Nat)).calls = [(0, FieldInput.sentinel)] := by
  exact ⟨rfl, rfl⟩

/-- C1 (amended): in every run of the field-matching processor, an
`AlwaysMatch` field's formatter is invoked exactly once with the no-data
sentinel, never marks any data index as matched, and emits exactly one
result precisely when the formatter returns a non-nil value or a
non-fatal formatter error (a nil result or invalid-data-type error emits
nothing); a non-`AlwaysMatch` field scans the data in original call
order, consumes one slot per successful non-nil match, each from a
still-unmatched index; and each datum is marked matched by at most one
field across the whole run. -/
theorem c1_slot_consumption_invariants :
    (∀ (α β : Type) (args : LogLineArgs) (field : Field)
        (formatters : String → Option (FieldFormatter α β)) (fmt : FieldFormatter α β)
        (data : List α) (matched : List Bool),
        formatters field.name = some fmt →
        field.settings.AlwaysMatch = true →
        (processField args formatters field data matched).calls = [.sentinel] ∧
        (processField args formatters field data matched).matched = matched ∧
        (processField args formatters field data matched).marks = [] ∧
        (processField args formatters field data matched).results.length =
          (match fmt args .sentinel with
            | .ok (some _) => 1
            | .error (.nonFatalFormatter _ _) => 1
            | _ => 0)) ∧
    (∀ (α β : Type) (args : LogLineArgs) (field : Field)
        (formatters : String → Option (FieldFormatter α β)) (fmt : FieldFormatter α β)
        (data : List α) (matched : List Bool),
        formatters field.name = some fmt →
        field.settings.AlwaysMatch = false →
        (processField args formatters field data matched).calls.Sublist
          (data.map FieldInput.datum) ∧
        ((processField args formatters field data matched).results.filter
          (fun r => r.isVal)).length =
          (processField args formatters field data matched).marks.length ∧
        (∀ q ∈ (processField args formatters field data matched).marks,
          q < matched.length ∧ matched.getD q false = false)) ∧
    (∀ (α β : Type) (args : LogLineArgs) (fields : List Field)
        (formatters : String → Option (FieldFormatter α β)) (data : List α),
        ((processFieldsWithData args fields formatters data).marks.map Prod.snd).Nodup) := by
  refine ⟨?_, ?_, ?_⟩
  · intro α β args field formatters fmt data matched hlk hA
    simp only [processField, hlk, hA, if_true]
    exact ⟨(pam_static matched).1, (pam_static matched).2.1, (pam_static matched).2.2,
      pam_results_length matched⟩
  · intro α β args field formatters fmt data matched hlk hA
    have h1 : (processField args formatters field data matched) =
        processDataMatchingFieldAux args field fmt data matched 0 := by
      simp [processField, hlk, hA, processDataMatchingField]
    rw [h1]
    refine ⟨pdm_calls_sublist data matched 0, pdm_val_count data matched 0, ?_⟩
    intro q hq
    obtain ⟨j, rfl, hj, hms⟩ := pdm_marks_spec data matched 0 q hq
    exact ⟨by omega, by simpa using hms⟩
  · intro α β args fields formatters data
    exact (run_marks_nodup_fresh fields (List.replicate data.length false) 0).1

/-- Witness for C1: a concrete `AlwaysMatch` field with a succeeding
formatter, evaluated through the theorem at data `[5]`. -/
def c1WitnessFmt : FieldFormatter Nat String := fun _ _ => .ok (some "x")

def c1WitnessFormatters : String → Option (FieldFormatter Nat String) :=
  fun _ => some c1WitnessFmt

theorem c1_witness :
    c1WitnessFormatters "am" = some c1WitnessFmt ∧
    (FieldSettings.mk false true).AlwaysMatch = true ∧
    (processField ⟨.Info, "", "text"⟩ c1WitnessFormatters ⟨"am", ⟨false, true⟩⟩
      [5] [false]).calls = [.sentinel] ∧
    (processField ⟨.Info, "", "text"⟩ c1WitnessFormatters ⟨"am", ⟨false, true⟩⟩
      [5] [false]).results.length = 1 := by
  refine ⟨rfl, rfl, ?_, ?_⟩
  · exact (c1_slot_consumption_invariants.1 Nat String ⟨.Info, "", "text"⟩
      ⟨"am", ⟨false, true⟩⟩ c1WitnessFormatters c1WitnessFmt [5] [false] rfl rfl).1
  · exact (c1_slot_consumption_invariants.1 Nat String ⟨.Info, "", "text"⟩
      ⟨"am", ⟨false, true⟩⟩ c1WitnessFormatters c1WitnessFmt [5] [false] rfl rfl).2.2.2

/-- C4: the processor's error protocol.  (A) an error is left unhandled
(fatal) iff it is neither a non-fatal formatter error nor an
invalid-data-type error; (B) a non-fatal formatter error emits one
ordinary result whose value is the error's text; (C) an invalid-data-type
error emits nothing for that pair; (D) the closed result stream contains
at most one error result, and only in terminal position; (E) a field's
processing is fatal iff its formatter is absent from the map or some
invocation returned an unhandled error; (F) on a fatal field the run
emits exactly one terminal error result and processes no further
fields. -/
theorem c4_error_result_protocol :
    (∀ (β : Type) (field : Field) (e : GoError),
        handleProcessorError (β := β) field e = none ↔
          (∀ n m, e ≠ .nonFatalFormatter n m) ∧ (∀ f, e ≠ .invalidFieldDataType f)) ∧
    (∀ (β : Type) (field : Field) (n m : String),
        handleProcessorError (β := β) field (.nonFatalFormatter n m) =
          some [.res field.name field.settings
            (.errText (GoError.text (.nonFatalFormatter n m)))]) ∧
    (∀ (β : Type) (field : Field) (f : String),
        handleProcessorError (β := β) field (.invalidFieldDataType f) = some []) ∧
    (∀ (α β : Type) (args : LogLineArgs)
        (formatters : String → Option (FieldFormatter α β)) (data : List α)
        (fields : List Field) (ms : List Bool) (k : Nat),
        ∃ rs t, (processAllFieldsAux args formatters data fields ms k).results = rs ++ t ∧
          rs.all ProcResult.isRes = true ∧
          (t = [] ∨ ∃ n e, t = [ProcResult.err n e])) ∧
    (∀ (α β : Type) (args : LogLineArgs) (field : Field)
        (formatters : String → Option (FieldFormatter α β)) (data : List α)
        (ms : List Bool) (e : GoError),
        (processField args formatters field data ms).fatal = some e ↔
          (formatters field.name = none ∧ e = .fieldFormatterInit field.name) ∨
            (∃ fmt, formatters field.name = some fmt ∧
              handleProcessorError (β := β) field e = none ∧
              ∃ inp ∈ (processField args formatters field data ms).calls,
                fmt args inp = .error e)) ∧
    (∀ (α β : Type) (args : LogLineArgs)
        (formatters : String → Option (FieldFormatter α β)) (data : List α)
        (f : Field) (fs : List Field) (ms : List Bool) (k : Nat) (e : GoError),
        (processField args formatters f data ms).fatal = some e →
        processAllFieldsAux args formatters data (f :: fs) ms k =
          ⟨(processField args formatters f data ms).matched,
            (processField args formatters f data ms).results ++ [.err f.name e],
            (processField args formatters f data ms).calls.map (fun c => (k, c)),
            (processField args formatters f data ms).marks.map (fun i => (k, i))⟩) := by
  refine ⟨?_, ?_, ?_, ?_, ?_, ?_⟩
  · intro β field e
    cases e <;> simp [handleProcessorError]
  · intro β field n m
    rfl
  · intro β field f
    rfl
  · intro α β args formatters data fields ms k
    exact run_results_shape fields ms k
  · intro α β args field formatters data ms e
    exact pf_fatal_iff data ms e
  · intro α β args formatters data f fs ms k e h
    exact runAux_cons_fatal h

/-- Formatter used by the C4 witness: always fails with an unclassified
error. -/
def c4BoomFmt : FieldFormatter Nat String := fun _ _ => .error (.other "boom")

def c4BoomFormatters : String → Option (FieldFormatter Nat String) :=
  fun _ => some c4BoomFmt

theorem c4_witness :
    (processField ⟨.Warn, "", "text"⟩ c4BoomFormatters ⟨"f", ⟨false, true⟩⟩
      ([] : List Nat) []).fatal = some (.other "boom") ∧
    processAllFieldsAux ⟨.Warn, "", "text"⟩ c4BoomFormatters ([] : List Nat)
      [⟨"f", ⟨false, true⟩⟩, ⟨"g", ⟨false, true⟩⟩] [] 0 =
      ⟨[], [ProcResult.err "f" (.other "boom")], [(0, FieldInput.sentinel)], []⟩ := by
  refine ⟨rfl, ?_⟩
  have h := c4_error_result_protocol.2.2.2.2.2 Nat String ⟨.Warn, "", "text"⟩
    c4BoomFormatters ([] : List Nat) ⟨"f", ⟨false, true⟩⟩ [⟨"g", ⟨false, true⟩⟩]
    [] 0 (.other "boom") rfl
  exact h.trans rfl

/-! ## Line formatters (`textFormatter`, `jsonFormatter`)

`FormatResult` distinguishes Go `nil` bytes (`none`) from empty bytes. -/

structure FormatResult (γ : Type) where
  bytes : Option γ
  err : Option GoError
deriving DecidableEq, Repr

/-- Rendering of a result's `any` payload by Go's `fmt.Sprintf("%v", ·)`:
`rv` renders formatter-produced values; a non-fatal error's text is
already a string. -/
def ProcValue.render {β : Type} (rv : β → String) : ProcValue β → String
  | .val v => rv v
  | .errText s => s

/-- `textFormatter.addDataToLogLine`: append `name=` unless `HideKey`,
then the rendered value, then one separator (the hard-coded `" "`). -/
def addDataToLogLine {β : Type} (rv : β → String) (line : String)
    (resultData : ProcValue β) (fName : String) (fSettings : FieldSettings) : String :=
  line ++ (if fSettings.HideKey then "" else fName ++ "=") ++
    resultData.render rv ++ " "

/-- `line[:len(line)-1]` guarded by `len(line) > 0`, from
`textFormatter.FormatLogLine`. -/
def trimTrailingSeparator (line : String) : String :=
  if line.length > 0 then line.dropRight 1 else line

/-- Consumption loop of `textFormatter.FormatLogLine` over the processor's
(ordered, closed) result stream, with the accumulated line. -/
def textFormatLogLineAux {β : Type} (rv : β → String) :
    String → List (ProcResult β) → FormatResult String
  | line, [] => ⟨some (trimTrailingSeparator line), none⟩
  | _, .err _ e :: _ => ⟨none, some e⟩
  | line, .res n s v :: rest => textFormatLogLineAux rv (addDataToLogLine rv line v n s) rest

/-- `textFormatter.FormatLogLine`, starting from the empty line. -/
def textFormatLogLine {β : Type} (rv : β → String) (results : List (ProcResult β)) :
    FormatResult String :=
  textFormatLogLineAux rv "" results

/-- The token one successful result contributes to the Text line, as the
spec words it: `name=` exactly when `HideKey` is false, the rendered
value, and one separator. -/
def textToken {β : Type} (rv : β → String) : ProcResult β → String
  | .res n s v => (if s.HideKey then "" else n ++ "=") ++ v.render rv ++ " "
  | .err _ _ => ""

/-- Text line as described by the spec: concatenate every field's token
(one separator after every field, including the last), then trim exactly
one trailing separator. -/
def textLineSpec {β : Type} (rv : β → String) (results : List (ProcResult β)) : String :=
  trimTrailingSeparator ((results.map (textToken rv)).foldr (· ++ ·) "")

theorem textFormatLogLineAux_ok {β : Type} (rv : β → String)
    (results : List (ProcResult β)) (h : results.all ProcResult.isRes = true) :
    ∀ line, textFormatLogLineAux rv line results =
      ⟨some (trimTrailingSeparator (line ++ (results.map (textToken rv)).foldr (· ++ ·) "")),
        none⟩ := by
  induction results with
  | nil => intro line; simp [textFormatLogLineAux]
  | cons r rest ih =>
    intro line
    cases r with
    | err n e => simp [ProcResult.isRes] at h
    | res n s v =>
      simp only [List.all_cons, Bool.and_eq_true] at h
      rw [textFormatLogLineAux, ih h.2]
      simp only [addDataToLogLine, textToken, List.map_cons, List.foldr_cons]
      congr 2
      simp [String.append_assoc]

theorem textFormatLogLineAux_err {β : Type} (rv : β → String)
    (pre : List (ProcResult β)) (n : String) (e : GoError) (post : List (ProcResult β))
    (h : pre.all ProcResult.isRes = true) :
    ∀ line, textFormatLogLineAux rv line (pre ++ .err n e :: post) = ⟨none, some e⟩ := by
  induction pre with
  | nil => intro line; simp [textFormatLogLineAux]
  | cons r rest ih =>
    intro line
    cases r with
    | err n' e' => simp [ProcResult.isRes] at h
    | res n' s v =>
      simp only [List.all_cons, Bool.and_eq_true] at h
      rw [List.cons_append, textFormatLogLineAux]
      exact ih h.2 _

/-- C5: over any error-free result stream, the Text formatter's output is
exactly the spec-described build — `name=` prefixed iff `HideKey` is
false, the rendered value, one separator after every field including the
last, and exactly one trailing separator trimmed; and any error result
aborts immediately with nil bytes and that error, regardless of what
follows it. -/
theorem c5_text_formatter_shape :
    (∀ (β : Type) (rv : β → String) (results : List (ProcResult β)),
        results.all ProcResult.isRes = true →
        textFormatLogLine rv results = ⟨some (textLineSpec rv results), none⟩) ∧
    (∀ (β : Type) (rv : β → String) (pre : List (ProcResult β)) (n : String)
        (e : GoError) (post : List (ProcResult β)),
        pre.all ProcResult.isRes = true →
        textFormatLogLine rv (pre ++ .err n e :: post) = ⟨none, some e⟩) := by
  constructor
  · intro β rv results h
    rw [textFormatLogLine, textFormatLogLineAux_ok rv results h ""]
    simp [textLineSpec]
  · intro β rv pre n e post h
    exact textFormatLogLineAux_err rv pre n e post h ""

theorem c5_witness :
    ([ProcResult.res "level" ⟨false, false⟩ (.val "INFO"),
      ProcResult.res "message" ⟨true, false⟩ (.val "hi")].all
        (ProcResult.isRes (β := String)) = true) ∧
    textFormatLogLine id
      [ProcResult.res "level" ⟨false, false⟩ (.val "INFO"),
       ProcResult.res "message" ⟨true, false⟩ (.val "hi")] =
      ⟨some "level=INFO hi", none⟩ ∧
    textFormatLogLine id
      ([] ++ ProcResult.err "f" (.other "boom") ::
        [ProcResult.res "level" (⟨false, false⟩ : FieldSettings) (.val ("INFO" : String))]) =
      ⟨none, some (.other "boom")⟩ := by
  refine ⟨rfl, ?_, ?_⟩
  · have h := c5_text_formatter_shape.1 String id
      [ProcResult.res "level" ⟨false, false⟩ (.val "INFO"),
       ProcResult.res "message" ⟨true, false⟩ (.val "hi")] rfl
    exact h.trans rfl
  · exact c5_text_formatter_shape.2 String id []
      "f" (.other "boom")
      [ProcResult.res "level" ⟨false, false⟩ (.val "INFO")] rfl

/-! ## JSON formatter (`jsonFormatter.FormatLogLine`) -/

/-- Go map assignment `jsonMap[name] = data` over an association-list
model of the map: replace in place if the key exists, else add. -/
def mapSet {β : Type} : List (String × ProcValue β) → String → ProcValue β →
    List (String × ProcValue β)
  | [], k, v => [(k, v)]
  | (k', v') :: rest, k, v =>
      if k' = k then (k, v) :: rest else (k', v') :: mapSet rest k v

def mapGet {β : Type} : List (String × ProcValue β) → String → Option (ProcValue β)
  | [], _ => none
  | (k', v') :: rest, k => if k' = k then some v' else mapGet rest k

/-- Accumulation loop of `jsonFormatter.FormatLogLine`: drain the result
stream into the map; an error result aborts with that error. -/
def jsonAccum {β : Type} (m : List (String × ProcValue β)) :
    List (ProcResult β) → Except GoError (List (String × ProcValue β))
  | [] => .ok m
  | .err _ e :: _ => .error e
  | .res n _ v :: rest => jsonAccum (mapSet m n v) rest

/-- `jsonFormatter.FormatLogLine`: accumulate into a fresh map, then
serialize the whole mapping with `json.Marshal` (modelled by the
`marshal` argument, an external collaborator). -/
def jsonFormatLogLine {β : Type} (marshal : List (String × ProcValue β) → String)
    (results : List (ProcResult β)) : FormatResult String :=
  match jsonAccum [] results with
  | .error e => ⟨none, some e⟩
  | .ok m => ⟨some (marshal m), none⟩

/-- The value a result list associates with a name, taking the **last**
matching result (selection function for last-write-wins). -/
def lastValueFor {β : Type} : List (ProcResult β) → String → Option (ProcValue β)
  | [], _ => none
  | .res n' _ v :: rest, n =>
      (match lastValueFor rest n with
        | some w => some w
        | none => if n' = n then some v else none)
  | .err _ _ :: rest, n => lastValueFor rest n

theorem mapSet_get_same {β : Type} (m : List (String × ProcValue β)) (k : String)
    (v : ProcValue β) : mapGet (mapSet m k v) k = some v := by
  induction m with
  | nil => simp [mapSet, mapGet]
  | cons p rest ih =>
    obtain ⟨k', v'⟩ := p
    by_cases h : k' = k
    · simp [mapSet, mapGet, h]
    · simp [mapSet, mapGet, h, ih]

theorem mapSet_get_other {β : Type} (m : List (String × ProcValue β)) (k k' : String)
    (v : ProcValue β) (h : k' ≠ k) : mapGet (mapSet m k v) k' = mapGet m k' := by
  induction m with
  | nil => simp [mapSet, mapGet, Ne.symm h]
  | cons p rest ih =>
    obtain ⟨k₀, v₀⟩ := p
    by_cases h0 : k₀ = k
    · subst h0
      simp [mapSet, mapGet, Ne.symm h]
    · simp [mapSet, mapGet, h0, ih]

theorem jsonAccum_get {β : Type} (results : List (ProcResult β))
    (h : results.all ProcResult.isRes = true) :
    ∀ (m : List (String × ProcValue β)) (n : String) (acc : List (String × ProcValue β)),
      jsonAccum m results = .ok acc →
      mapGet acc n = match lastValueFor results n with
        | some v => some v
        | none => mapGet m n := by
  induction results with
  | nil =>
    intro m n acc hacc
    simp only [jsonAccum] at hacc
    obtain rfl : m = acc := by simpa using hacc
    simp [lastValueFor]
  | cons r rest ih =>
    intro m n acc hacc
    cases r with
    | err n' e => simp [ProcResult.isRes] at h
    | res n' s v =>
      simp only [List.all_cons, Bool.and_eq_true] at h
      rw [jsonAccum] at hacc
      have hrec := ih h.2 (mapSet m n' v) n acc hacc
      rcases hcase : lastValueFor rest n with _ | w
      · rw [hcase] at hrec
        by_cases hn : n' = n
        · subst hn
          rw [hrec, mapSet_get_same]
          simp [lastValueFor, hcase]
        · rw [hrec, mapSet_get_other m n' n v (Ne.symm hn)]
          simp [lastValueFor, hcase, hn]
      · rw [hcase] at hrec
        rw [hrec]
        simp [lastValueFor, hcase]

theorem jsonAccum_err {β : Type} (pre : List (ProcResult β)) (n : String)
    (e : GoError) (post : List (ProcResult β)) (h : pre.all ProcResult.isRes = true) :
    ∀ m, jsonAccum m (pre ++ .err n e :: post) = .error e := by
  induction pre with
  | nil => intro m; simp [jsonAccum]
  | cons r rest ih =>
    intro m
    cases r with
    | err n' e' => simp [ProcResult.isRes] at h
    | res n' s v =>
      simp only [List.all_cons, Bool.and_eq_true] at h
      rw [List.cons_append, jsonAccum]
      exact ih h.2 _

theorem jsonAccum_ok {β : Type} (results : List (ProcResult β))
    (h : results.all ProcResult.isRes = true) :
    ∀ m, ∃ acc, jsonAccum m results = .ok acc := by
  induction results with
  | nil => intro m; exact ⟨m, rfl⟩
  | cons r rest ih =>
    intro m
    cases r with
    | err n' e => simp [ProcResult.isRes] at h
    | res n' s v =>
      simp only [List.all_cons, Bool.and_eq_true] at h
      exact ih h.2 (mapSet m n' v)

/-- C6: the JSON formatter accumulates results into one name→value
mapping with Go-map assignment semantics — a name matched more than once
overwrites its prior entry, so the mapping's entry for each name is the
**last** result's value (in particular, for two results on the same name
the second wins); on completion it serializes the whole accumulated
mapping as one JSON object; and any error result aborts with nil bytes
and that error. -/
theorem c6_json_last_write_wins :
    (∀ (β : Type) (marshal : List (String × ProcValue β) → String)
        (results : List (ProcResult β)),
        results.all ProcResult.isRes = true →
        ∃ acc, jsonAccum [] results = .ok acc ∧
          jsonFormatLogLine marshal results = ⟨some (marshal acc), none⟩ ∧
          ∀ n, mapGet acc n = lastValueFor results n) ∧
    (∀ (β : Type) (marshal : List (String × ProcValue β) → String)
        (pre : List (ProcResult β)) (n : String) (e : GoError)
        (post : List (ProcResult β)),
        pre.all ProcResult.isRes = true →
        jsonFormatLogLine marshal (pre ++ .err n e :: post) = ⟨none, some e⟩) := by
  constructor
  · intro β marshal results h
    obtain ⟨acc, hacc⟩ := jsonAccum_ok results h []
    refine ⟨acc, hacc, ?_, ?_⟩
    · rw [jsonFormatLogLine, hacc]
    · intro n
      rw [jsonAccum_get results h [] n acc hacc]
      rcases lastValueFor results n with _ | v <;> simp [mapGet]
  · intro β marshal pre n e post h
    rw [jsonFormatLogLine, jsonAccum_err pre n e post h []]

theorem c6_witness :
    ([ProcResult.res "message" ⟨true, false⟩ (.val "first"),
      ProcResult.res "message" ⟨true, false⟩ (.val "second")].all
        (ProcResult.isRes (β := String)) = true) ∧
    (∃ acc, jsonAccum [] [ProcResult.res "message" ⟨true, false⟩ (.val "first"),
        ProcResult.res "message" ⟨true, false⟩ (.val ("second" : String))] = .ok acc ∧
      mapGet acc "message" = some (.val "second")) := by
  refine ⟨rfl, ?_⟩
  obtain ⟨acc, hacc, _, hget⟩ := c6_json_last_write_wins.1 String (fun _ => "")
    [ProcResult.res "message" ⟨true, false⟩ (.val "first"),
     ProcResult.res "message" ⟨true, false⟩ (.val "second")] rfl
  refine ⟨acc, hacc, ?_⟩
  rw [hget "message"]
  rfl

/-! ## ANSI colorization (`color_ansi.go`)

Bytes are modelled as `List Nat`.  A Go `nil` slice differs observably
from an empty one in `totalBufferLength` (`Background != nil`) versus
`Colorize` (`len(Background) > 0`), so `Background` is an
`Option (List Nat)`. -/

def ansiReset : List Nat := [27, 91, 48, 109]

def ansiCSInit : List Nat := [27, 91]

def ansiCSEnd : Nat := 109

def ansiCSSeparator : Nat := 59

structure ColorAnsi where
  Code : List Nat
  Background : Option (List Nat)
  Settings : List (List Nat)
deriving DecidableEq, Repr

/-- `ColorAnsi.totalBufferLength`: the up-front buffer size — note the
background contributes `len+1` whenever it is non-nil (`!= nil`), even if
empty. -/
def ColorAnsi.totalBufferLength (ac : ColorAnsi) (content : List Nat) : Nat :=
  ansiCSInit.length +
    ac.Settings.foldr (fun s acc => s.length + 1 + acc) 0 +
    (match ac.Background with
      | none => 0
      | some b => b.length + 1) +
    ac.Code.length + 1 + content.length + ansiReset.length

/-- The byte prefix actually copied into the buffer by `Colorize`: the
control-sequence init, each setting followed by a separator, the
background followed by a separator only when `len(Background) > 0`, the
code, the terminator, the content, and the reset sequence. -/
def ColorAnsi.writtenBytes (ac : ColorAnsi) (content : List Nat) : List Nat :=
  ansiCSInit ++
    ac.Settings.foldr (fun s acc => s ++ [ansiCSSeparator] ++ acc) [] ++
    (match ac.Background with
      | some b => if 0 < b.length then b ++ [ansiCSSeparator] else []
      | none => []) ++
    ac.Code ++ [ansiCSEnd] ++ content ++ ansiReset

/-- `ColorAnsi.Colorize`: empty content is returned unchanged; otherwise
the Go code allocates a zero-filled buffer of `totalBufferLength` bytes
and copies the sections sequentially, so the result is the written prefix
padded with zero bytes up to the allocated length. -/
def ColorAnsi.Colorize (ac : ColorAnsi) (content : List Nat) : List Nat :=
  if content.length = 0 then content
  else
    ac.writtenBytes content ++
      List.replicate (ac.totalBufferLength content - (ac.writtenBytes content).length) 0

/-- `Colors.Red` (`Code: "31"`, zero-valued background and settings). -/
def ColorsRed : ColorAnsi := ⟨[51, 49], none, []⟩

def ColorsGreen : ColorAnsi := ⟨[51, 50], none, []⟩

def ColorsYellow : ColorAnsi := ⟨[51, 51], none, []⟩

def ColorsWhite : ColorAnsi := ⟨[51, 55], none, []⟩

def ColorsMagenta : ColorAnsi := ⟨[51, 53], none, []⟩

theorem settings_concat_length (ss : List (List Nat)) :
    (ss.foldr (fun s acc => s ++ [ansiCSSeparator] ++ acc) []).length =
      ss.foldr (fun s acc => s.length + 1 + acc) 0 := by
  induction ss with
  | nil => rfl
  | cons s rest ih =>
    simp only [List.foldr_cons, List.length_append, ih, List.length_cons,
      List.length_nil]

theorem writtenBytes_length (ac : ColorAnsi) (content : List Nat)
    (hbg : ac.Background = none ∨ ∃ b, ac.Background = some b ∧ b ≠ []) :
    (ac.writtenBytes content).length = ac.totalBufferLength content := by
  have hs := settings_concat_length ac.Settings
  rcases hbg with hbg | ⟨b, hbg, hb⟩
  · simp only [ColorAnsi.writtenBytes, ColorAnsi.totalBufferLength, hbg]
    simp only [List.length_append, List.length_cons, List.length_nil, hs,
      ansiCSInit, ansiReset]
  · have hlen : 0 < b.length := List.length_pos.2 hb
    simp only [ColorAnsi.writtenBytes, ColorAnsi.totalBufferLength, hbg, if_pos hlen]
    simp only [List.length_append, List.length_cons, List.length_nil, hs,
      ansiCSInit, ansiReset]

/-- C8 counterexample: a color whose background is a non-nil **empty**
slice.  `totalBufferLength` counts it (`Background != nil`) but
`Colorize` skips it (`len > 0`), so the output is the claimed
concatenation followed by one stray zero byte — not "exactly the
concatenation" of the listed parts. -/
theorem c8_counterexample :
    ColorAnsi.Colorize ⟨[51, 49], some [], []⟩ [116, 101, 115, 116] =
      [27, 91, 51, 49, 109, 116, 101, 115, 116, 27, 91, 48, 109, 0] ∧
    ColorAnsi.Colorize ⟨[51, 49], some [], []⟩ [116, 101, 115, 116] ≠
      ColorAnsi.writtenBytes ⟨[51, 49], some [], []⟩ [116, 101, 115, 116] ∧
    (ColorAnsi.Colorize ⟨[51, 49], some [], []⟩ [116, 101, 115, 116]).length =
      ColorAnsi.totalBufferLength ⟨[51, 49], some [], []⟩ [116, 101, 115, 116] := by
  refine ⟨by decide, by decide, by decide⟩

/-- C8 (amended): for every color whose background is nil or non-empty
and every non-empty content, `Colorize` returns exactly the concatenation
of control-sequence-init, each attribute code followed by `;`, the
background code followed by `;` when present, the foreground code, the
terminator, the content, and the reset sequence, with length equal to the
up-front-computed `totalBufferLength`; `Colorize(Red, "test")` yields
exactly `ESC[31mtestESC[0m`; and empty content is returned unchanged.  (A
non-nil empty background instead yields one trailing zero byte, see the
counterexample.) -/
theorem c8_colorize_bytes :
    (∀ (ac : ColorAnsi) (content : List Nat),
        (ac.Background = none ∨ ∃ b, ac.Background = some b ∧ b ≠ []) →
        content ≠ [] →
        ac.Colorize content =
          ansiCSInit ++
            ac.Settings.foldr (fun s acc => s ++ [ansiCSSeparator] ++ acc) [] ++
            (match ac.Background with
              | some b => if 0 < b.length then b ++ [ansiCSSeparator] else []
              | none => []) ++
            ac.Code ++ [ansiCSEnd] ++ content ++ ansiReset ∧
          (ac.Colorize content).length = ac.totalBufferLength content) ∧
    (∀ ac : ColorAnsi, ac.Colorize [] = []) ∧
    (ColorsRed.Colorize [116, 101, 115, 116] =
        [27, 91] ++ [51, 49] ++ [109] ++ [116, 101, 115, 116] ++ [27, 91, 48, 109] ∧
      (ColorsRed.Colorize [116, 101, 115, 116]).length =
        ansiCSInit.length + [51, 49].length + 1 + 4 + ansiReset.length) := by
  refine ⟨?_, ?_, by decide, by decide⟩
  · intro ac content hbg hc
    have hlen : content.length ≠ 0 := by
      simpa [List.length_eq_zero] using hc
    have hw := writtenBytes_length ac content hbg
    constructor
    · rw [ColorAnsi.Colorize, if_neg hlen, hw]
      simp [ColorAnsi.writtenBytes]
    · rw [ColorAnsi.Colorize, if_neg hlen, hw]
      simp [hw]
  · intro ac
    rfl

theorem c8_witness :
    ((ColorsRed.Background = none ∨ ∃ b, ColorsRed.Background = some b ∧ b ≠ []) ∧
      ([116, 101, 115, 116] : List Nat) ≠ []) ∧
    ColorsRed.Colorize [116, 101, 115, 116] =
      [27, 91, 51, 49, 109, 116, 101, 115, 116, 27, 91, 48, 109] := by
  refine ⟨⟨Or.inl rfl, by decide⟩, ?_⟩
  have h := (c8_colorize_bytes.1 ColorsRed [116, 101, 115, 116]
    (Or.inl rfl) (by decide)).1
  exact h.trans (by decide)

/-! ## Colorized formatter (`formatter_colorized.go`) -/

/-- `defaultLevelColors` from the source: Debug→Green, Info→White,
Warn→Yellow, Error→Red, Panic→Magenta. -/
def defaultLevelColors : List (Level × ColorAnsi) :=
  [(.Debug, ColorsGreen), (.Info, ColorsWhite), (.Warn, ColorsYellow),
   (.Error, ColorsRed), (.Panic, ColorsMagenta)]

def levelColorsGet : List (Level × ColorAnsi) → Level → Option ColorAnsi
  | [], _ => none
  | (l, c) :: rest, lvl => if l = lvl then some c else levelColorsGet rest lvl

/-- `ColorizedFormatter`: a base formatter (over call data of type `δ`)
and a level→color table.  Line bytes are `List Nat`; `nil` bytes are
`none`. -/
structure ColorizedFormatter (δ : Type) where
  BaseFormatter : LogLineArgs → List δ → FormatResult (List Nat)
  LevelColors : List (Level × ColorAnsi)

/-- `NewColorizedFormatter`: `nil` colors default to a copy of
`defaultLevelColors`; there is **no** error return and no completeness
check of the table. -/
def NewColorizedFormatter {δ : Type} (baseFormatter : LogLineArgs → List δ → FormatResult (List Nat))
    (levelColors : Option (List (Level × ColorAnsi))) : ColorizedFormatter δ :=
  match levelColors with
  | none => ⟨baseFormatter, defaultLevelColors⟩
  | some cs => ⟨baseFormatter, cs⟩

/-- `ColorizedFormatter.FormatLogLine`: pass through base errors; on a
missing level color return the base bytes together with
`ErrorMissingLevelColor`; otherwise colorize the bytes. -/
def ColorizedFormatter.FormatLogLine {δ : Type} (f : ColorizedFormatter δ)
    (args : LogLineArgs) (data : List δ) : FormatResult (List Nat) :=
  let res := f.BaseFormatter args data
  match res.err with
  | some _ => res
  | none =>
    match levelColorsGet f.LevelColors args.level with
    | none => ⟨res.bytes, some (.missingLevelColor args.level)⟩
    | some color => ⟨res.bytes.map color.Colorize, none⟩

/-- C10: when the inner formatter succeeds but the call's level has no
entry in the level→color table, `FormatLogLine` returns the inner
formatter's bytes unmodified together with `ErrorMissingLevelColor`. -/
theorem c10_missing_level_color_keeps_bytes :
    ∀ (δ : Type) (f : ColorizedFormatter δ) (args : LogLineArgs) (data : List δ),
      (f.BaseFormatter args data).err = none →
      levelColorsGet f.LevelColors args.level = none →
      f.FormatLogLine args data =
        ⟨(f.BaseFormatter args data).bytes, some (.missingLevelColor args.level)⟩ := by
  intro δ f args data herr hcolor
  rw [ColorizedFormatter.FormatLogLine]
  simp only [herr, hcolor]

/-- Base formatter used in the C7/C10 concrete instances: always succeeds
with the bytes `"hi"`. -/
def plainBase : LogLineArgs → List Nat → FormatResult (List Nat) :=
  fun _ _ => ⟨some [104, 105], none⟩

theorem c10_witness :
    ((plainBase ⟨.Info, "", "text"⟩ []).err = none ∧
      levelColorsGet [] (Level.Info) = none) ∧
    (ColorizedFormatter.mk plainBase []).FormatLogLine ⟨.Info, "", "text"⟩ [] =
      ⟨some [104, 105], some (.missingLevelColor .Info)⟩ := by
  refine ⟨⟨rfl, rfl⟩, ?_⟩
  have h := c10_missing_level_color_keeps_bytes Nat ⟨plainBase, []⟩
    ⟨.Info, "", "text"⟩ [] rfl rfl
  exact h.trans rfl

/-! ## Construction-time checks (`field.go`, `formatter.go`) -/

def OutputFormatJSON : String := "json"

def OutputFormatText : String := "text"

/-- The Go model of an `ObjectField[T]` after construction. -/
structure ObjectFieldModel (α β : Type) where
  name : String
  options : FieldSettings
  format : FieldFormatter α β

/-- Sequential application of `FieldOption`s, stopping at the first
error, from `NewObjectField`'s options loop. -/
def applyFieldOptions : List (FieldSettings → Except GoError FieldSettings) →
    FieldSettings → Except GoError FieldSettings
  | [], s => .ok s
  | o :: os, s =>
    match o s with
    | .error e => .error e
    | .ok s' => applyFieldOptions os s'

/-- `NewObjectField`: an empty name yields `ErrorEmptyFieldName`, a nil
formatter yields `ErrorNilFormatter`; otherwise the field's formatter is
the type-checked wrapper (`castT` models the Go type assertion `.(T)` on
the incoming `any`, failure producing `ErrorInvalidFieldDataType`). -/
def NewObjectField {α β τ : Type} (name : String)
    (formatter : Option (LogLineArgs → τ → Except GoError (Option β)))
    (castT : FieldInput α → Option τ)
    (opts : List (FieldSettings → Except GoError FieldSettings)) :
    Except GoError (ObjectFieldModel α β) :=
  if name = "" then .error .emptyFieldName
  else
    match formatter with
    | none => .error .nilFormatter
    | some fmtr =>
      match applyFieldOptions opts ⟨false, false⟩ with
      | .error e => .error e
      | .ok settings =>
        .ok ⟨name, settings, fun args inp =>
          match castT inp with
          | none => .error (.invalidFieldDataType name)
          | some t => fmtr args t⟩

/-- The formatter chosen by `NewFormatter`'s output-format switch. -/
inductive LogLineFormatterChoice where
  | json (fields : List Field)
  | text (fields : List Field)
deriving DecidableEq, Repr

/-- `NewFormatter`: unknown output formats yield `ErrorInvalidOutput`;
formatter options are applied only after a successful switch. -/
def NewFormatter (outputFormat : String) (fields : List Field)
    (opts : List (LogLineFormatterChoice → LogLineFormatterChoice)) :
    Except GoError LogLineFormatterChoice :=
  if outputFormat = OutputFormatJSON then
    .ok (opts.foldl (fun f opt => opt f) (.json fields))
  else if outputFormat = OutputFormatText then
    .ok (opts.foldl (fun f opt => opt f) (.text fields))
  else
    .error (.invalidOutput outputFormat)

/-- C7 counterexample: a colorized formatter built over a color table
missing **every** level is constructed successfully — the constructor has
no error return and performs no per-level completeness check — and the
missing-color error surfaces only later, on the hot formatting path. -/
theorem c7_counterexample :
    (NewColorizedFormatter plainBase (some [])).LevelColors = [] ∧
    (NewColorizedFormatter plainBase (some [])).FormatLogLine ⟨.Info, "", "text"⟩ [] =
      ⟨some [104, 105], some (.missingLevelColor .Info)⟩ := by
  exact ⟨rfl, rfl⟩

/-- C7 (amended): an empty field name, a nil field formatter and an
unknown output format are all surfaced synchronously at construction
(`ErrorEmptyFieldName`, `ErrorNilFormatter`, `ErrorInvalidOutput`); a
missing per-level color, however, is **not** a construction-time error:
`NewColorizedFormatter` accepts any table (nil defaults to the default
table) without a completeness check, and the missing-level error is
returned by `FormatLogLine` at format time. -/
theorem c7_setup_errors_at_construction :
    (∀ (α β τ : Type) (formatter : Option (LogLineArgs → τ → Except GoError (Option β)))
        (castT : FieldInput α → Option τ)
        (opts : List (FieldSettings → Except GoError FieldSettings)),
        NewObjectField "" formatter castT opts = .error .emptyFieldName) ∧
    (∀ (α β τ : Type) (name : String) (castT : FieldInput α → Option τ)
        (opts : List (FieldSettings → Except GoError FieldSettings)),
        name ≠ "" →
        NewObjectField (α := α) (β := β) (τ := τ) name none castT opts =
          .error .nilFormatter) ∧
    (∀ (outputFormat : String) (fields : List Field)
        (opts : List (LogLineFormatterChoice → LogLineFormatterChoice)),
        outputFormat ≠ OutputFormatJSON → outputFormat ≠ OutputFormatText →
        NewFormatter outputFormat fields opts = .error (.invalidOutput outputFormat)) ∧
    (∀ (δ : Type) (base : LogLineArgs → List δ → FormatResult (List Nat))
        (cs : List (Level × ColorAnsi)),
        (NewColorizedFormatter base (some cs)).LevelColors = cs ∧
        (NewColorizedFormatter base none).LevelColors = defaultLevelColors) ∧
    (∀ (δ : Type) (base : LogLineArgs → List δ → FormatResult (List Nat))
        (cs : List (Level × ColorAnsi)) (args : LogLineArgs) (data : List δ),
        (base args data).err = none → levelColorsGet cs args.level = none →
        (NewColorizedFormatter base (some cs)).FormatLogLine args data =
          ⟨(base args data).bytes, some (.missingLevelColor args.level)⟩) := by
  refine ⟨?_, ?_, ?_, ?_, ?_⟩
  · intro α β τ formatter castT opts
    rfl
  · intro α β τ name castT opts hname
    rw [NewObjectField, if_neg hname]
  · intro outputFormat fields opts h1 h2
    rw [NewFormatter, if_neg h1, if_neg h2]
  · intro δ base cs
    exact ⟨rfl, rfl⟩
  · intro δ base cs args data herr hcolor
    rw [NewColorizedFormatter]
    rw [show (⟨base, cs⟩ : ColorizedFormatter δ).FormatLogLine args data =
      ⟨(base args data).bytes, some (.missingLevelColor args.level)⟩ from ?_]
    · rw [ColorizedFormatter.FormatLogLine]
      simp only [herr, hcolor]

theorem c7_witness :
    (("bogus" : String) ≠ OutputFormatJSON ∧ ("bogus" : String) ≠ OutputFormatText ∧
      ("name" : String) ≠ "") ∧
    NewObjectField (α := Nat) (β := String) (τ := Nat) "" (some (fun _ _ => .ok none))
      (fun _ => none) [] = .error .emptyFieldName ∧
    NewObjectField (α := Nat) (β := String) (τ := Nat) "name" none
      (fun _ => none) [] = .error .nilFormatter ∧
    NewFormatter "bogus" [] [] = .error (.invalidOutput "bogus") := by
  refine ⟨⟨by decide, by decide, by decide⟩, ?_, ?_, ?_⟩
  · exact c7_setup_errors_at_construction.1 Nat String Nat
      (some (fun _ _ => .ok none)) (fun _ => none) []
  · exact c7_setup_errors_at_construction.2.1 Nat String Nat "name"
      (fun _ => none) [] (by decide)
  · exact c7_setup_errors_at_construction.2.2.1 "bogus" [] [] (by decide) (by decide)

/-! ## Nil field data in Text output

Two generations coexist in the sources: the processor-based
`textFormatter` (which receives only results the processor chose to emit)
and the legacy `TextFormatter` built on `computeFieldResult`, which
substitutes the placeholder `"<nil>"` when a field result's data is
nil. -/

structure LegacyFieldResult (β : Type) where
  Name : String
  Data : Option β
deriving DecidableEq, Repr

/-- A legacy `Field` as consumed by `computeFieldResult`: its
`NewFieldFormatter()` may fail, and its formatter returns
`(FieldResult, error)`. -/
structure LegacyField (α β : Type) where
  name : String
  newFieldFormatter : Except GoError (LogLineArgs → α → LegacyFieldResult β × Option GoError)

/-- `computeFieldResult` (`formatter.go`): a `NewFieldFormatter` error is
fatal; an invalid-data-type error discards the field; any other
formatter error falls through and the field result is returned as-is. -/
def computeFieldResult {α β : Type} (field : LegacyField α β) (args : LogLineArgs)
    (data : α) : Except GoError (Option (LegacyFieldResult β)) :=
  match field.newFieldFormatter with
  | .error _ => .error (.fieldFormatterInit field.name)
  | .ok ff =>
    match (ff args data).2 with
    | some (.invalidFieldDataType _) => .ok none
    | _ => .ok (some (ff args data).1)

/-- Loop of the legacy `TextFormatter.FormatLogLine` (`i` the field
index, `total` the field count): nil field data renders as `"<nil>"`, a
separator is appended between fields only. -/
def legacyTextAux {α β : Type} (rv : β → String) (args : LogLineArgs) (data : α)
    (total : Nat) : List (LegacyField α β) → Nat → String → FormatResult String
  | [], _, line => ⟨some line, none⟩
  | f :: fs, i, line =>
    match computeFieldResult f args data with
    | .error e => ⟨none, some e⟩
    | .ok none => legacyTextAux rv args data total fs (i + 1) line
    | .ok (some fr) =>
      let resultBytes := match fr.Data with
        | none => "<nil>"
        | some v => rv v
      legacyTextAux rv args data total fs (i + 1)
        (if i < total - 1 then line ++ resultBytes ++ " " else line ++ resultBytes)

/-- Legacy `TextFormatter.FormatLogLine` (`src/unnamed/part_006`). -/
def legacyTextFormatLogLine {α β : Type} (rv : β → String)
    (fields : List (LegacyField α β)) (args : LogLineArgs) (data : α) :
    FormatResult String :=
  legacyTextAux rv args data fields.length fields 0 ""

/-- The processor-based Text pipeline: run the field processor and drain
its result stream through `textFormatter.FormatLogLine`. -/
def textPipelineFormatLogLine {α β : Type} (rv : β → String) (args : LogLineArgs)
    (fields : List Field) (formatters : String → Option (FieldFormatter α β))
    (data : List α) : FormatResult String :=
  textFormatLogLine rv
    (processFieldsWithData { args with outputFormat := OutputFormatText }
      fields formatters data).results

/-- Legacy field whose formatter reports success with nil data. -/
def c9NilField : LegacyField Nat String :=
  ⟨"f", .ok (fun _ _ => (⟨"f", none⟩, none))⟩

/-- C9 counterexample: the legacy `TextFormatter` renders a field whose
result carries nil data as the placeholder token `"<nil>"` — the
formatted line does contain a placeholder. -/
theorem c9_counterexample :
    legacyTextFormatLogLine id [c9NilField] ⟨.Info, "", "text"⟩ 0 =
      ⟨some "<nil>", none⟩ := by
  rfl

theorem nilResult_pdm {α β : Type} (args : LogLineArgs) (field : Field)
    (ds : List α) (ms : List Bool) (i : Nat) :
    (processDataMatchingFieldAux args field
      (fun _ _ => .ok (none : Option β)) ds ms i).results = [] ∧
    (processDataMatchingFieldAux args field
      (fun _ _ => .ok (none : Option β)) ds ms i).fatal = none ∧
    (processDataMatchingFieldAux args field
      (fun _ _ => .ok (none : Option β)) ds ms i).marks = [] := by
  induction ds generalizing ms i with
  | nil => exact ⟨rfl, rfl, rfl⟩
  | cons d ds' ih =>
    match ms with
    | [] => exact ⟨rfl, rfl, rfl⟩
    | true :: ms' =>
      simpa only [processDataMatchingFieldAux] using ih ms' (i + 1)
    | false :: ms' =>
      simpa only [processDataMatchingFieldAux] using ih ms' (i + 1)

/-- C9 (amended): in the processor-based Text pipeline a field invocation
returning nil data emits no result and consumes no slot — the field
contributes nothing (not even a placeholder) to the line, and a line
consisting only of such a field renders as empty text; the legacy
`TextFormatter` of `part_006`, by contrast, renders the placeholder
`"<nil>"` for a field result with nil data. -/
theorem c9_nil_renders_empty :
    (∀ (α β : Type) (args : LogLineArgs) (field : Field) (fmt : FieldFormatter α β)
        (d : α) (ds : List α) (ms : List Bool) (i : Nat),
        fmt args (.datum d) = .ok none →
        processDataMatchingFieldAux args field fmt (d :: ds) (false :: ms) i =
          ⟨false :: (processDataMatchingFieldAux args field fmt ds ms (i + 1)).matched,
            (processDataMatchingFieldAux args field fmt ds ms (i + 1)).results,
            (processDataMatchingFieldAux args field fmt ds ms (i + 1)).fatal,
            .datum d :: (processDataMatchingFieldAux args field fmt ds ms (i + 1)).calls,
            (processDataMatchingFieldAux args field fmt ds ms (i + 1)).marks⟩) ∧
    (∀ (α β : Type) (args : LogLineArgs) (field : Field) (fmt : FieldFormatter α β)
        (matched : List Bool),
        fmt args .sentinel = .ok none →
        processAlwaysMatchField args field fmt matched =
          ⟨matched, [], none, [.sentinel], []⟩) ∧
    (∀ (α β : Type) (rv : β → String) (args : LogLineArgs) (field : Field)
        (data : List α),
        textPipelineFormatLogLine rv args [field]
          (fun _ => some (fun _ _ => .ok none)) data = ⟨some "", none⟩) ∧
    legacyTextFormatLogLine id [c9NilField] ⟨.Info, "", "text"⟩ 0 =
      ⟨some "<nil>", none⟩ := by
  refine ⟨?_, ?_, ?_, rfl⟩
  · intro α β args field fmt d ds ms i h
    simp only [processDataMatchingFieldAux, h]
  · intro α β args field fmt matched h
    simp only [processAlwaysMatchField, h]
  · intro α β rv args field data
    rw [textPipelineFormatLogLine]
    have hrun : (processFieldsWithData { args with outputFormat := OutputFormatText }
        [field] (fun _ => some (fun _ _ => .ok (none : Option β))) data).results = [] := by
      rw [processFieldsWithData]
      rcases hA : field.settings.AlwaysMatch with _ | _
      · have hstep : (processField { args with outputFormat := OutputFormatText }
            (fun _ => some (fun _ _ => .ok (none : Option β))) field data
            (List.replicate data.length false)) =
            processDataMatchingFieldAux { args with outputFormat := OutputFormatText }
              field (fun _ _ => .ok none) data (List.replicate data.length false) 0 := by
          simp [processField, hA, processDataMatchingField]
        obtain ⟨h1, h2, _⟩ := nilResult_pdm (β := β)
          { args with outputFormat := OutputFormatText } field data
          (List.replicate data.length false) 0
        rw [runAux_cons_ok (by rw [hstep]; exact h2)]
        rw [hstep]
        simp [processAllFieldsAux, h1]
      · have hstep : (processField { args with outputFormat := OutputFormatText }
            (fun _ => some (fun _ _ => .ok (none : Option β))) field data
            (List.replicate data.length false)) =
            ⟨List.replicate data.length false, [], none, [.sentinel], []⟩ := by
          simp [processField, hA, processAlwaysMatchField]
        rw [runAux_cons_ok (by rw [hstep])]
        rw [hstep]
        simp [processAllFieldsAux]
    rw [hrun]
    rfl

/-- Processor-generation formatter that always reports nil data. -/
def c9NilFmt : FieldFormatter Nat String := fun _ _ => .ok none

theorem c9_witness :
    c9NilFmt ⟨.Info, "", "text"⟩ .sentinel = .ok none ∧
    processAlwaysMatchField ⟨.Info, "", "text"⟩ ⟨"t", ⟨false, true⟩⟩ c9NilFmt [false] =
      ⟨[false], [], none, [.sentinel], []⟩ ∧
    textPipelineFormatLogLine id ⟨.Info, "", "text"⟩ [⟨"msg", ⟨false, false⟩⟩]
      (fun _ => some c9NilFmt) [7] = ⟨some "", none⟩ := by
  refine ⟨rfl, ?_, ?_⟩
  · exact c9_nil_renders_empty.2.1 Nat String ⟨.Info, "", "text"⟩
      ⟨"t", ⟨false, true⟩⟩ c9NilFmt [false] rfl
  · exact c9_nil_renders_empty.2.2.1 Nat String id ⟨.Info, "", "text"⟩
      ⟨"msg", ⟨false, false⟩⟩ [7]

/-! ## Asynchronous per-destination unit (`ultraLogger.writeLogLineAsync`)

Wall-clock time is modelled by explicit phase durations (`tFmt`, `tWr`,
in milliseconds) measured against the single shared deadline started at
call time; each `select` resolves in favor of `ctx.Done()` iff the
deadline has already elapsed when the phase's result is ready. -/

/-- `loglineTimeout` (`logger.go`): 250 milliseconds. -/
def loglineTimeoutMs : Nat := 250

/-- Observable effects of one asynchronous per-destination unit: the
bytes handed to the destination's writer (`none` if the write phase never
started), the errors reported through the logger's own `Error`
diagnostics, and the write error passed on to the fallback path.  The
unit surfaces nothing else to its caller — `writeLogLineAsync` returns no
value in the source. -/
structure AsyncOutcome where
  written : Option String
  diagnostics : List GoError
  fallbackErr : Option GoError
deriving DecidableEq, Repr

/-- `ultraLogger.writeLogLineAsync`: phase 1 races the formatter against
the deadline; a deadline hit drops the line with no effect at all.  An
error or empty/nil bytes end the unit (the error after one diagnostic).
Phase 2 starts only on a non-empty error-free result; the write goroutine
evaluates `write(w, b)` before offering the result to its channel, so
once phase 2 starts the bytes reach the writer even if the deadline then
cuts off observation of the write's outcome. -/
def writeLogLineAsyncUnit (tFmt tWr : Nat) (fr : FormatResult String)
    (writeErr : Option GoError) : AsyncOutcome :=
  if loglineTimeoutMs ≤ tFmt then ⟨none, [], none⟩
  else
    match fr.err with
    | some e => ⟨none, [e], none⟩
    | none =>
      match fr.bytes with
      | none => ⟨none, [], none⟩
      | some b =>
        if b.length = 0 then ⟨none, [], none⟩
        else if loglineTimeoutMs ≤ tFmt + tWr then ⟨some (b ++ "\n"), [], none⟩
        else
          match writeErr with
          | none => ⟨some (b ++ "\n"), [], none⟩
          | some e => ⟨some (b ++ "\n"), [], some e⟩

/-- The async branch of `Log` starts one unit per destination, each
registered on the flush wait-group; `Flush` returns once every started
unit has finished. -/
def dispatchAsync (units : List (Nat × Nat × FormatResult String × Option GoError)) :
    List AsyncOutcome :=
  units.map (fun u => writeLogLineAsyncUnit u.1 u.2.1 u.2.2.1 u.2.2.2)

/-- C3: the per-line deadline is the fixed 250 ms constant shared by both
phases; when the formatter fails to deliver within it, the unit drops the
line silently — no bytes are handed to the destination, no diagnostic is
logged, no error reaches the fallback path or the caller — and every
started unit still finishes (one outcome per started unit, so the flush
wait-group drains and `Flush()` returns). -/
theorem c3_deadline_drop_is_silent :
    loglineTimeoutMs = 250 ∧
    (∀ (tFmt tWr : Nat) (fr : FormatResult String) (writeErr : Option GoError),
        loglineTimeoutMs ≤ tFmt →
        writeLogLineAsyncUnit tFmt tWr fr writeErr = ⟨none, [], none⟩) ∧
    (∀ units, (dispatchAsync units).length = units.length) := by
  refine ⟨rfl, ?_, ?_⟩
  · intro tFmt tWr fr writeErr h
    rw [writeLogLineAsyncUnit, if_pos h]
  · intro units
    simp [dispatchAsync]

theorem c3_witness :
    loglineTimeoutMs ≤ 251 ∧
    writeLogLineAsyncUnit 251 0 ⟨some "line", none⟩ none = ⟨none, [], none⟩ := by
  refine ⟨by decide, ?_⟩
  exact c3_deadline_drop_is_silent.2.1 251 0 ⟨some "line", none⟩ none (by decide)

/-! ## Dispatch engine, synchronous path (`ultraLogger.Log`,
`writeLogLine`, `handleLogWriterError`)

Writers are identified by `Nat`; one distinguished identity plays
`os.Stdout`.  Each writer's write outcome is a fixed environment
`writeErr : Nat → Option GoError`.  A run returns the final logger state,
the trace of write attempts `(writer, bytes)` (each with the newline
`write` appends), and whether it returned normally or panicked.  `Log`'s
map iteration is modelled over the key list snapshot, refetching each
key's current formatter as Go's `range` does. -/

/-- A call-site datum (`any`). -/
inductive GoVal where
  | str (s : String)
  | num (n : Nat)
deriving DecidableEq, Repr

abbrev LFormatter := LogLineArgs → List GoVal → FormatResult String

structure LoggerState where
  minLevel : Level
  destinations : List (Nat × Option LFormatter)
  tag : String
  silent : Bool
  fallback : Bool

inductive LogOutcome where
  | normal
  | panicked (e : GoError)
  | fuelOut
deriving DecidableEq, Repr

abbrev LogRun := LoggerState × List (Nat × String) × LogOutcome

def destsGet : List (Nat × Option LFormatter) → Nat → Option (Option LFormatter)
  | [], _ => none
  | (w', f) :: rest, w => if w' = w then some f else destsGet rest w

/-- `l.destinations[writer] = nil`: disable in place, never remove. -/
def disableDest (dests : List (Nat × Option LFormatter)) (w : Nat) :
    List (Nat × Option LFormatter) :=
  dests.map (fun p => if p.1 = w then (p.1, none) else p)

/-- The diagnostic `handleLogWriterError` logs at Error level
(`fmt.Sprintf("error writing to original log writer, disabling formatter
for writer: %v", err)`). -/
def diagMsg (e : GoError) : String :=
  "error writing to original log writer, disabling formatter for writer: " ++ e.text

/-- The diagnostic `writeLogLine` logs when formatting fails (the
`Sprintf` rendering of the formatter and data is abstracted to the
error's text). -/
def fmtFailMsg (e : GoError) : String :=
  "failed to format log line. err=" ++ e.text

/-- `ultraLogger.handleLogWriterError`, parameterized by the behavior
`logFn` of the logger's own `Log` (tied to `ulLog` at one less fuel):
panic unless fallback is enabled and the writer is not standard output;
otherwise disable the destination in place, log one Error-level
diagnostic, then redeliver the original call. -/
def handleLogWriterError (stdout : Nat)
    (logFn : LoggerState → Level → List GoVal → LogRun)
    (st : LoggerState) (w : Nat) (msgLevel : Level) (e : GoError)
    (data : List GoVal) : LogRun :=
  if st.fallback = false ∨ w = stdout then (st, [], .panicked e)
  else
    let st1 := { st with destinations := disableDest st.destinations w }
    match logFn st1 .Error [.str (diagMsg e)] with
    | (st2, tr1, .normal) =>
      match logFn st2 msgLevel data with
      | (st3, tr2, oc) => (st3, tr1 ++ tr2, oc)
    | r => r

/-- `ultraLogger.writeLogLine`: format, then write (the attempt is
recorded in the trace with the appended newline); a format error logs one
diagnostic through the logger itself and skips the write; a write error
enters `handleLogWriterError`. -/
def writeLogLine (writeErr : Nat → Option GoError) (stdout : Nat)
    (logFn : LoggerState → Level → List GoVal → LogRun)
    (st : LoggerState) (args : LogLineArgs) (w : Nat) (f : LFormatter)
    (data : List GoVal) : LogRun :=
  match (f args data).err with
  | some e => logFn st .Error [.str (fmtFailMsg e)]
  | none =>
    let b := (f args data).bytes.getD "" ++ "\n"
    match writeErr w with
    | none => (st, [(w, b)], .normal)
    | some e =>
      match handleLogWriterError stdout logFn st w args.level e data with
      | (st', tr, oc) => (st', (w, b) :: tr, oc)

/-- The per-destination loop of `Log` over the key snapshot, refetching
each key's current formatter and skipping `nil` (disabled) ones; a panic
aborts the remaining destinations. -/
def logDests (writeErr : Nat → Option GoError) (stdout : Nat)
    (logFn : LoggerState → Level → List GoVal → LogRun)
    (args : LogLineArgs) (data : List GoVal) :
    LoggerState → List Nat → LogRun
  | st, [] => (st, [], .normal)
  | st, w :: ws =>
    match destsGet st.destinations w with
    | none => logDests writeErr stdout logFn args data st ws
    | some none => logDests writeErr stdout logFn args data st ws
    | some (some f) =>
      match writeLogLine writeErr stdout logFn st args w f data with
      | (st', tr, .normal) =>
        match logDests writeErr stdout logFn args data st' ws with
        | (st'', tr', oc) => (st'', tr ++ tr', oc)
      | r => r

/-- `ultraLogger.Log`, synchronous mode, with a fuel bound on the nested
`Log` calls the fallback path makes.  A silent logger or a level below
the threshold is a no-op checked before any destination work. -/
def ulLog (writeErr : Nat → Option GoError) (stdout : Nat) :
    Nat → LoggerState → Level → List GoVal → LogRun
  | 0, st, _, _ => (st, [], .fuelOut)
  | fuel + 1, st, level, data =>
    if st.silent = true ∨ level.toNat < st.minLevel.toNat then (st, [], .normal)
    else
      logDests writeErr stdout (ulLog writeErr stdout fuel)
        ⟨level, st.tag, ""⟩ data st (st.destinations.map Prod.fst)

section LoggerLemmas

variable {writeErr : Nat → Option GoError} {stdout : Nat}

theorem disableDest_keys (dests : List (Nat × Option LFormatter)) (w : Nat) :
    (disableDest dests w).map Prod.fst = dests.map Prod.fst := by
  induction dests with
  | nil => rfl
  | cons p rest ih =>
    by_cases h : p.1 = w <;> simp [disableDest, h] <;>
      simpa [disableDest] using ih

theorem destsGet_disable (dests : List (Nat × Option LFormatter)) (w w' : Nat) :
    destsGet (disableDest dests w) w' =
      if w' = w then (destsGet dests w').map (fun _ => none) else destsGet dests w' := by
  induction dests with
  | nil => by_cases h : w' = w <;> simp [disableDest, destsGet, h]
  | cons p rest ih =>
    obtain ⟨w₀, f₀⟩ := p
    rw [show disableDest ((w₀, f₀) :: rest) w =
      (if w₀ = w then (w₀, none) else (w₀, f₀)) :: disableDest rest w from rfl]
    by_cases h0 : w₀ = w
    · subst h0
      rw [if_pos rfl]
      by_cases h1 : w' = w₀
      · subst h1
        simp [destsGet, ih]
      · have h1' : ¬(w₀ = w') := fun h => h1 h.symm
        simp [destsGet, h1, h1', ih]
    · rw [if_neg h0]
      by_cases h1 : w₀ = w'
      · subst h1
        simp [destsGet, h0]
      · simp [destsGet, h0, h1, ih]

/-- A run whose write trace never touches writer `w` and whose final
state still has `w` disabled. -/
def TraceAvoids (w : Nat) (r : LogRun) : Prop :=
  (∀ p ∈ r.2.1, p.1 ≠ w) ∧ destsGet r.1.destinations w = some none

/-- The nested-`Log` behavior respects disabled destinations. -/
def LogFnSkips (w : Nat) (logFn : LoggerState → Level → List GoVal → LogRun) : Prop :=
  ∀ st level data, destsGet st.destinations w = some none →
    TraceAvoids w (logFn st level data)

theorem disable_preserves_none {dests : List (Nat × Option LFormatter)} {w w' : Nat}
    (h : destsGet dests w = some none) :
    destsGet (disableDest dests w') w = some none := by
  rw [destsGet_disable]
  by_cases hww : w = w'
  · rw [if_pos hww, h]
    rfl
  · rw [if_neg hww, h]

theorem hlwe_skips {logFn : LoggerState → Level → List GoVal → LogRun} {w : Nat}
    (hlog : LogFnSkips w logFn) {st : LoggerState} {w' : Nat} {msgLevel : Level}
    {e : GoError} {data : List GoVal}
    (hst : destsGet st.destinations w = some none) :
    TraceAvoids w (handleLogWriterError stdout logFn st w' msgLevel e data) := by
  by_cases hp : st.fallback = false ∨ w' = stdout
  · rw [handleLogWriterError, if_pos hp]
    exact ⟨by simp, hst⟩
  · have hst1 : destsGet (disableDest st.destinations w') w = some none :=
      disable_preserves_none hst
    rcases h1 : logFn { st with destinations := disableDest st.destinations w' }
        .Error [.str (diagMsg e)] with ⟨st2, tr1, oc1⟩
    have ha1 : TraceAvoids w (st2, tr1, oc1) := by
      rw [← h1]; exact hlog _ _ _ hst1
    cases oc1 with
    | normal =>
      rcases h2 : logFn st2 msgLevel data with ⟨st3, tr2, oc2⟩
      have ha2 : TraceAvoids w (st3, tr2, oc2) := by
        rw [← h2]; exact hlog _ _ _ ha1.2
      have hres : handleLogWriterError stdout logFn st w' msgLevel e data =
          (st3, tr1 ++ tr2, oc2) := by
        simp only [handleLogWriterError, if_neg hp, h1, h2]
      rw [hres]
      refine ⟨?_, ha2.2⟩
      intro p hp'
      rcases List.mem_append.1 hp' with hp' | hp'
      · exact ha1.1 p hp'
      · exact ha2.1 p hp'
    | panicked e' =>
      have hres : handleLogWriterError stdout logFn st w' msgLevel e data =
          (st2, tr1, .panicked e') := by
        simp only [handleLogWriterError, if_neg hp, h1]
      rw [hres]
      exact ha1
    | fuelOut =>
      have hres : handleLogWriterError stdout logFn st w' msgLevel e data =
          (st2, tr1, .fuelOut) := by
        simp only [handleLogWriterError, if_neg hp, h1]
      rw [hres]
      exact ha1

theorem wll_skips {logFn : LoggerState → Level → List GoVal → LogRun} {w : Nat}
    (hlog : LogFnSkips w logFn) {st : LoggerState} {args : LogLineArgs} {w' : Nat}
    {f : LFormatter} {data : List GoVal}
    (hst : destsGet st.destinations w = some none) (hne : w' ≠ w) :
    TraceAvoids w (writeLogLine writeErr stdout logFn st args w' f data) := by
  rcases hferr : (f args data).err with _ | e
  · rcases hwr : writeErr w' with _ | e
    · rw [writeLogLine, hferr, hwr]
      exact ⟨by simpa using hne, hst⟩
    · rcases hh : handleLogWriterError stdout logFn st w' args.level e data
        with ⟨st', tr, oc⟩
      have ha : TraceAvoids w (st', tr, oc) := by
        rw [← hh]; exact hlwe_skips hlog hst
      have hres : writeLogLine writeErr stdout logFn st args w' f data =
          (st', (w', (f args data).bytes.getD "" ++ "\n") :: tr, oc) := by
        simp only [writeLogLine, hferr, hwr, hh]
      rw [hres]
      refine ⟨?_, ha.2⟩
      intro p hp
      rcases List.mem_cons.1 hp with rfl | hp
      · exact hne
      · exact ha.1 p hp
  · rw [writeLogLine, hferr]
    exact hlog _ _ _ hst

theorem logDests_skips {logFn : LoggerState → Level → List GoVal → LogRun} {w : Nat}
    (hlog : LogFnSkips w logFn) (args : LogLineArgs) (data : List GoVal) :
    ∀ (keys : List Nat) (st : LoggerState),
      destsGet st.destinations w = some none →
      TraceAvoids w (logDests writeErr stdout logFn args data st keys) := by
  intro keys
  induction keys with
  | nil => intro st hst; exact ⟨by simp [logDests], by simpa [logDests] using hst⟩
  | cons w'' ws ih =>
    intro st hst
    rcases hget : destsGet st.destinations w'' with _ | (_ | f)
    · rw [logDests, hget]
      exact ih st hst
    · rw [logDests, hget]
      exact ih st hst
    · have hne : w'' ≠ w := by
        intro hcontra
        rw [hcontra, hst] at hget
        simp at hget
      rcases hw : writeLogLine writeErr stdout logFn st args w'' f data
        with ⟨st', tr, oc⟩
      have ha : TraceAvoids w (st', tr, oc) := by
        rw [← hw]; exact wll_skips hlog hst hne
      cases oc with
      | normal =>
        rcases hrest : logDests writeErr stdout logFn args data st' ws
          with ⟨st'', tr', oc'⟩
        have ha' : TraceAvoids w (st'', tr', oc') := by
          rw [← hrest]; exact ih st' ha.2
        have hres : logDests writeErr stdout logFn args data st (w'' :: ws) =
            (st'', tr ++ tr', oc') := by
          simp only [logDests, hget, hw, hrest]
        rw [hres]
        refine ⟨?_, ha'.2⟩
        intro p hp
        rcases List.mem_append.1 hp with hp | hp
        · exact ha.1 p hp
        · exact ha'.1 p hp
      | panicked e =>
        have hres : logDests writeErr stdout logFn args data st (w'' :: ws) =
            (st', tr, .panicked e) := by
          simp only [logDests, hget, hw]
        rw [hres]
        exact ha
      | fuelOut =>
        have hres : logDests writeErr stdout logFn args data st (w'' :: ws) =
            (st', tr, .fuelOut) := by
          simp only [logDests, hget, hw]
        rw [hres]
        exact ha

theorem ulLog_skips (w : Nat) :
    ∀ fuel : Nat, LogFnSkips w (ulLog writeErr stdout fuel) := by
  intro fuel
  induction fuel with
  | zero =>
    intro st level data hst
    exact ⟨by simp [ulLog], by simpa [ulLog] using hst⟩
  | succ fuel ih =>
    intro st level data hst
    rw [ulLog]
    by_cases hsil : st.silent = true ∨ level.toNat < st.minLevel.toNat
    · rw [if_pos hsil]
      exact ⟨by simp, hst⟩
    · rw [if_neg hsil]
      exact logDests_skips ih _ _ _ st hst

end LoggerLemmas

/-- C2: on a write failure in `Log`, `handleLogWriterError` (i) panics —
terminates abruptly — when fallback is disabled or the failing writer is
standard output, leaving the destination set untouched (standard output
is never disabled); (ii) otherwise disables exactly the failing
destination in place — the key set is preserved, the entry is set to nil,
all other entries are unchanged; (iii) then issues exactly one
Error-level diagnostic `Log` call through the reduced set followed by one
redelivery of the original call; (iv) a disabled destination receives no
bytes from any later `Log`; and (v) end to end, with one failing writer
among three destinations, the failing writer sees only the original
failed attempt while the other destinations receive the one diagnostic
line and the redelivered original line. -/
theorem c2_write_error_fallback :
    (∀ (stdout : Nat) (logFn : LoggerState → Level → List GoVal → LogRun)
        (st : LoggerState) (w : Nat) (msgLevel : Level) (e : GoError)
        (data : List GoVal),
        st.fallback = false ∨ w = stdout →
        handleLogWriterError stdout logFn st w msgLevel e data =
          (st, [], .panicked e)) ∧
    (∀ (dests : List (Nat × Option LFormatter)) (w w' : Nat),
        (disableDest dests w).map Prod.fst = dests.map Prod.fst ∧
        destsGet (disableDest dests w) w' =
          (if w' = w then (destsGet dests w').map (fun _ => none)
            else destsGet dests w')) ∧
    (∀ (stdout : Nat) (logFn : LoggerState → Level → List GoVal → LogRun)
        (st : LoggerState) (w : Nat) (msgLevel : Level) (e : GoError)
        (data : List GoVal) (st2 st3 : LoggerState) (tr1 tr2 : List (Nat × String))
        (oc : LogOutcome),
        st.fallback = true → w ≠ stdout →
        logFn { st with destinations := disableDest st.destinations w } .Error
          [.str (diagMsg e)] = (st2, tr1, .normal) →
        logFn st2 msgLevel data = (st3, tr2, oc) →
        handleLogWriterError stdout logFn st w msgLevel e data =
          (st3, tr1 ++ tr2, oc)) ∧
    (∀ (writeErr : Nat → Option GoError) (stdout w : Nat) (fuel : Nat)
        (st : LoggerState) (level : Level) (data : List GoVal),
        destsGet st.destinations w = some none →
        ∀ p ∈ (ulLog writeErr stdout fuel st level data).2.1, p.1 ≠ w) ∧
    (∀ (writeErr : Nat → Option GoError) (stdout a w b : Nat)
        (fa fw fb : LFormatter) (tag : String) (level : Level)
        (data : List GoVal) (e : GoError) (fuel : Nat),
        a ≠ w → b ≠ w → a ≠ b → w ≠ stdout →
        writeErr a = none → writeErr w = some e → writeErr b = none →
        (∀ ar d, (fa ar d).err = none) → (∀ ar d, (fw ar d).err = none) →
        (∀ ar d, (fb ar d).err = none) →
        ulLog writeErr stdout (fuel + 2)
          ⟨.Debug, [(a, some fa), (w, some fw), (b, some fb)], tag, false, true⟩
          level data =
          (⟨.Debug, [(a, some fa), (w, none), (b, some fb)], tag, false, true⟩,
            [(a, (fa ⟨level, tag, ""⟩ data).bytes.getD "" ++ "\n"),
             (w, (fw ⟨level, tag, ""⟩ data).bytes.getD "" ++ "\n"),
             (a, (fa ⟨.Error, tag, ""⟩ [.str (diagMsg e)]).bytes.getD "" ++ "\n"),
             (b, (fb ⟨.Error, tag, ""⟩ [.str (diagMsg e)]).bytes.getD "" ++ "\n"),
             (a, (fa ⟨level, tag, ""⟩ data).bytes.getD "" ++ "\n"),
             (b, (fb ⟨level, tag, ""⟩ data).bytes.getD "" ++ "\n"),
             (b, (fb ⟨level, tag, ""⟩ data).bytes.getD "" ++ "\n")],
            .normal)) := by
  refine ⟨?_, ?_, ?_, ?_, ?_⟩
  · intro stdout logFn st w msgLevel e data h
    rw [handleLogWriterError, if_pos h]
  · intro dests w w'
    exact ⟨disableDest_keys dests w, destsGet_disable dests w w'⟩
  · intro stdout logFn st w msgLevel e data st2 st3 tr1 tr2 oc hfb hw h1 h2
    have hcond : ¬(st.fallback = false ∨ w = stdout) := by
      rw [hfb]
      simp [hw]
    simp only [handleLogWriterError, if_neg hcond, h1, h2]
  · intro writeErr stdout w fuel st level data hst
    have h : TraceAvoids w (ulLog writeErr stdout fuel st level data) :=
      ulLog_skips w fuel st level data hst
    exact h.1
  · intro writeErr stdout a w b fa fw fb tag level data e fuel haw hbw hab hstd
      hwa hww hwb hfa hfw hfb
    have hwb' : ¬(w = b) := fun h => hbw h.symm
    have hdisable : disableDest [(a, some fa), (w, some fw), (b, some fb)] w =
        [(a, some fa), (w, none), (b, some fb)] := by
      simp [disableDest, haw, hbw]
    have hgA0 : destsGet [(a, some fa), (w, some fw), (b, some fb)] a =
        some (some fa) := by
      simp [destsGet]
    have hgW0 : destsGet [(a, some fa), (w, some fw), (b, some fb)] w =
        some (some fw) := by
      simp [destsGet, haw]
    have hgB0 : destsGet [(a, some fa), (w, some fw), (b, some fb)] b =
        some (some fb) := by
      simp [destsGet, hab, hwb']
    have hgA1 : destsGet [(a, some fa), (w, none), (b, some fb)] a =
        some (some fa) := by
      simp [destsGet]
    have hgW1 : destsGet [(a, some fa), (w, none), (b, some fb)] w = some none := by
      simp [destsGet, haw]
    have hgB1 : destsGet [(a, some fa), (w, none), (b, some fb)] b =
        some (some fb) := by
      simp [destsGet, hab, hwb']
    have hwllOK : ∀ (L : LoggerState → Level → List GoVal → LogRun)
        (st : LoggerState) (ar : LogLineArgs) (w' : Nat) (f : LFormatter)
        (d : List GoVal),
        (∀ a2 d2, (f a2 d2).err = none) → writeErr w' = none →
        writeLogLine writeErr stdout L st ar w' f d =
          (st, [(w', (f ar d).bytes.getD "" ++ "\n")], .normal) := by
      intro L st ar w' f d hf hw
      simp only [writeLogLine, hf, hw]
    have hLogInner : ∀ (lvl : Level) (d : List GoVal),
        ulLog writeErr stdout (fuel + 1)
          ⟨.Debug, [(a, some fa), (w, none), (b, some fb)], tag, false, true⟩ lvl d =
          (⟨.Debug, [(a, some fa), (w, none), (b, some fb)], tag, false, true⟩,
            [(a, (fa ⟨lvl, tag, ""⟩ d).bytes.getD "" ++ "\n"),
             (b, (fb ⟨lvl, tag, ""⟩ d).bytes.getD "" ++ "\n")],
            .normal) := by
      intro lvl d
      have ha' := hwllOK (ulLog writeErr stdout fuel)
        ⟨.Debug, [(a, some fa), (w, none), (b, some fb)], tag, false, true⟩
        ⟨lvl, tag, ""⟩ a fa d hfa hwa
      have hb' := hwllOK (ulLog writeErr stdout fuel)
        ⟨.Debug, [(a, some fa), (w, none), (b, some fb)], tag, false, true⟩
        ⟨lvl, tag, ""⟩ b fb d hfb hwb
      simp [ulLog, logDests, Level.toNat, hgA1, hgW1, hgB1, ha', hb']
    have hhlwe : handleLogWriterError stdout (ulLog writeErr stdout (fuel + 1))
        ⟨.Debug, [(a, some fa), (w, some fw), (b, some fb)], tag, false, true⟩
        w level e data =
        (⟨.Debug, [(a, some fa), (w, none), (b, some fb)], tag, false, true⟩,
          [(a, (fa ⟨.Error, tag, ""⟩ [.str (diagMsg e)]).bytes.getD "" ++ "\n"),
           (b, (fb ⟨.Error, tag, ""⟩ [.str (diagMsg e)]).bytes.getD "" ++ "\n"),
           (a, (fa ⟨level, tag, ""⟩ data).bytes.getD "" ++ "\n"),
           (b, (fb ⟨level, tag, ""⟩ data).bytes.getD "" ++ "\n")],
          .normal) := by
      have hcond : ¬((⟨.Debug, [(a, some fa), (w, some fw), (b, some fb)], tag,
          false, true⟩ : LoggerState).fallback = false ∨ w = stdout) := by
        simp [hstd]
      simp only [handleLogWriterError, if_neg hcond, hdisable,
        hLogInner .Error [.str (diagMsg e)], hLogInner level data]
      rfl
    have hwllW : writeLogLine writeErr stdout (ulLog writeErr stdout (fuel + 1))
        ⟨.Debug, [(a, some fa), (w, some fw), (b, some fb)], tag, false, true⟩
        ⟨level, tag, ""⟩ w fw data =
        (⟨.Debug, [(a, some fa), (w, none), (b, some fb)], tag, false, true⟩,
          (w, (fw ⟨level, tag, ""⟩ data).bytes.getD "" ++ "\n") ::
            [(a, (fa ⟨.Error, tag, ""⟩ [.str (diagMsg e)]).bytes.getD "" ++ "\n"),
             (b, (fb ⟨.Error, tag, ""⟩ [.str (diagMsg e)]).bytes.getD "" ++ "\n"),
             (a, (fa ⟨level, tag, ""⟩ data).bytes.getD "" ++ "\n"),
             (b, (fb ⟨level, tag, ""⟩ data).bytes.getD "" ++ "\n")],
          .normal) := by
      simp only [writeLogLine, hfw, hww, hhlwe]
    have hA0 := hwllOK (ulLog writeErr stdout (fuel + 1))
      ⟨.Debug, [(a, some fa), (w, some fw), (b, some fb)], tag, false, true⟩
      ⟨level, tag, ""⟩ a fa data hfa hwa
    have hB1 := hwllOK (ulLog writeErr stdout (fuel + 1))
      ⟨.Debug, [(a, some fa), (w, none), (b, some fb)], tag, false, true⟩
      ⟨level, tag, ""⟩ b fb data hfb hwb
    have hc : ¬((false : Bool) = true ∨ level.toNat < Level.toNat .Debug) := by
      simp [Level.toNat]
    have htop : ulLog writeErr stdout (fuel + 2)
        ⟨.Debug, [(a, some fa), (w, some fw), (b, some fb)], tag, false, true⟩
        level data =
        logDests writeErr stdout (ulLog writeErr stdout (fuel + 1))
          ⟨level, tag, ""⟩ data
          ⟨.Debug, [(a, some fa), (w, some fw), (b, some fb)], tag, false, true⟩
          [a, w, b] := by
      show (if (false : Bool) = true ∨ level.toNat < Level.toNat .Debug then
          ((⟨.Debug, [(a, some fa), (w, some fw), (b, some fb)], tag, false, true⟩ :
              LoggerState),
            ([] : List (Nat × String)), LogOutcome.normal)
        else
          logDests writeErr stdout (ulLog writeErr stdout (fuel + 1))
            ⟨level, tag, ""⟩ data
            ⟨.Debug, [(a, some fa), (w, some fw), (b, some fb)], tag, false, true⟩
            [a, w, b]) =
        logDests writeErr stdout (ulLog writeErr stdout (fuel + 1))
          ⟨level, tag, ""⟩ data
          ⟨.Debug, [(a, some fa), (w, some fw), (b, some fb)], tag, false, true⟩
          [a, w, b]
      rw [if_neg hc]
    rw [htop]
    simp only [logDests, hgA0, hgW0, hgB0, hgB1, hA0, hwllW, hB1]
    simp

def c2Fa : LFormatter := fun _ _ => ⟨some "LA", none⟩

def c2Fw : LFormatter := fun _ _ => ⟨some "LW", none⟩

def c2Fb : LFormatter := fun _ _ => ⟨some "LB", none⟩

def c2WriteErr : Nat → Option GoError :=
  fun n => if n = 2 then some (.writeFailed "boom") else none

theorem c2_witness :
    ((1 : Nat) ≠ 2 ∧ (3 : Nat) ≠ 2 ∧ (1 : Nat) ≠ 3 ∧ (2 : Nat) ≠ 0 ∧
      c2WriteErr 1 = none ∧ c2WriteErr 2 = some (.writeFailed "boom")) ∧
    ulLog c2WriteErr 0 2
      ⟨.Debug, [(1, some c2Fa), (2, some c2Fw), (3, some c2Fb)], "", false, true⟩
      .Info [] =
      (⟨.Debug, [(1, some c2Fa), (2, none), (3, some c2Fb)], "", false, true⟩,
        [(1, "LA\n"), (2, "LW\n"), (1, "LA\n"), (3, "LB\n"), (1, "LA\n"),
         (3, "LB\n"), (3, "LB\n")],
        .normal) := by
  refine ⟨⟨by decide, by decide, by decide, by decide, rfl, rfl⟩, ?_⟩
  have h := c2_write_error_fallback.2.2.2.2 c2WriteErr 0 1 2 3 c2Fa c2Fw c2Fb
    "" .Info [] (.writeFailed "boom") 0 (by decide) (by decide) (by decide)
    (by decide) rfl rfl rfl (fun _ _ => rfl) (fun _ _ => rfl) (fun _ _ => rfl)
  exact h.trans (by rfl)

end Ultra
